import Mathlib

/-!
Verification development for the WireDiagramMaker scene-graph core.

The embedding mirrors the Python sources:
  * `diagram_elements.py` — nodes, connections (with waypoints), images;
  * `diagram_actions.py`  — the reversible command objects;
  * `diagram_canvas.py`   — the canvas controller: command log
    (`execute_action` / `undo` / `redo`), `add_connection`,
    `delete_selected`, `duplicate_module`, module dragging,
    `export_diagram` / `import_diagram`;
  * `main.py`             — the module-placement handler (`on_load_module`).

Python objects are compared and stored by reference identity (none of the
entity classes define `__eq__`), so every entity is represented here by a
natural-number id.  The scene keeps the canvas's three Python lists as lists
of ids, and the mutable attribute record of each object lives in a heap
(`Nat → Data`); a record exists in the heap even when the object is not in a
canvas list, exactly as a Python object outlives its list membership.
Transient UI-only attributes (`selected`, `highlighted`, the derived `rect`)
are not part of the scene state: the spec's data model (§3) lists the scene
attributes of each entity and selection explicitly lives outside the
command log (§4.2).
-/

namespace WireDiagram

/-- A 2-D integer point, standing for a `QPoint` (whose coordinates are
machine ints; all arithmetic performed on them in the modelled code is
addition/subtraction well inside the 32-bit range). -/
abbrev Pt := Int × Int

instance : Add Pt := ⟨fun a b => (a.1 + b.1, a.2 + b.2)⟩

theorem Pt.add_def (a b : Pt) : a + b = (a.1 + b.1, a.2 + b.2) := rfl

/-- An RGB colour, standing for the `(red, green, blue)` components of a
`QColor`. -/
structure Color where
  r : Nat
  g : Nat
  b : Nat
deriving DecidableEq, Repr

/-- The scene attributes of a `Node` (diagram_elements.py, class `Node`). -/
structure NodeData where
  name : String
  pos : Pt
  nclass : String
  color : Color
  locked : Bool
  moduleId : Option String
deriving DecidableEq, Repr

/-- The scene attributes of a `Connection` (diagram_elements.py).  `n1`/`n2`
are the ids of the endpoint node objects. -/
structure ConnData where
  n1 : Nat
  n2 : Nat
  color : Color
  ortho : Bool
  waypoints : List Pt
deriving DecidableEq, Repr

/-- The scene attributes of an `Image` (diagram_elements.py). -/
structure ImgData where
  path : String
  pos : Pt
  width : Int
  height : Int
  rotation : Int
  mid : Option String
deriving DecidableEq, Repr

/-- The scene state owned by `DiagramCanvas`: the three entity lists
(`self.nodes`, `self.connections`, `self.images`, holding object references,
here ids) together with the attribute heaps of all objects. -/
structure Scene where
  nodes : List Nat
  conns : List Nat
  images : List Nat
  nheap : Nat → NodeData
  cheap : Nat → ConnData
  iheap : Nat → ImgData

/-- Update one node object's attributes (a Python attribute assignment on the
object with id `n`). -/
def Scene.setNode (s : Scene) (n : Nat) (d : NodeData) : Scene :=
  { s with nheap := fun k => if k = n then d else s.nheap k }

/-- Update one connection object's attributes. -/
def Scene.setConn (s : Scene) (c : Nat) (d : ConnData) : Scene :=
  { s with cheap := fun k => if k = c then d else s.cheap k }

/-- Update one image object's attributes. -/
def Scene.setImage (s : Scene) (i : Nat) (d : ImgData) : Scene :=
  { s with iheap := fun k => if k = i then d else s.iheap k }

/-- Does connection `c` reference node `n` as either endpoint?  Mirrors the
identity comparisons `conn.node1 == node or conn.node2 == node`. -/
def Scene.refs (s : Scene) (c n : Nat) : Bool :=
  ((s.cheap c).n1 == n) || ((s.cheap c).n2 == n)

/-!
### The command objects (`diagram_actions.py`)

Each constructor carries exactly the state its Python class stores.
`deleteNode` carries the list of incident connections captured by
`DeleteNodeAction.execute` (initially the empty list set in `__init__`);
executing the action re-captures it, so `execAction` returns the updated
action alongside the new scene.  `createModule` stores its per-object
original `locked`/`module_id` dictionaries as association lists, and
`moveModule` stores the before/after position and waypoint dictionaries the
same way.
-/

inductive Action where
  | addNode (n : Nat)
  | deleteNode (n : Nat) (captured : List Nat)
  | addConnection (c : Nat)
  | deleteConnection (c : Nat)
  | moveNode (n : Nat) (oldPos newPos : Pt)
  | changeNodeColor (n : Nat) (oldColor newColor : Color)
  | changeNodeClass (n : Nat) (oldClass newClass : String) (oldColor newColor : Color)
  | changeConnectionColor (c : Nat) (oldColor newColor : Color)
  | addImage (i : Nat)
  | deleteImage (i : Nat)
  | moveImage (i : Nat) (oldPos newPos : Pt)
  | resizeImage (i : Nat) (oldW oldH newW newH : Int)
  | createModule (ns imgs : List Nat) (mid : String)
      (origLocked : List (Nat × Bool)) (origMid : List (Nat × Option String))
      (origImgMid : List (Nat × Option String))
  | moveModule (oldN newN oldI newI : List (Nat × Pt))
      (oldW newW : List (Nat × List Pt))
  | duplicateModule (ns imgs cs : List Nat)
  | addWaypoint (c : Nat) (wp : Pt) (idx : Nat)
  | removeWaypoint (c : Nat) (wp : Pt) (idx : Nat)
deriving DecidableEq, Repr

/-- Dictionary lookup on an association list (a Python `dict` keyed by object
identity). -/
def alookup {α : Type} (l : List (Nat × α)) (k : Nat) : Option α :=
  (l.find? (fun p => p.1 == k)).map Prod.snd

/-- `AddWaypointAction.execute`: insert only when the stored index is within
`0..len`. -/
def waypointInsert (ws : List Pt) (wp : Pt) (idx : Nat) : List Pt :=
  if idx ≤ ws.length then ws.insertIdx idx wp else ws

/-- `AddWaypointAction.undo` / `RemoveWaypointAction.execute`: pop the stored
index only when it is in range and the element there still equals the stored
waypoint. -/
def waypointPop (ws : List Pt) (wp : Pt) (idx : Nat) : List Pt :=
  if idx < ws.length ∧ ws[idx]? = some wp then ws.eraseIdx idx else ws

/-- Remove each element of `toRemove` from `l` (first occurrence each), as in
`for conn in captured: if conn in conns: conns.remove(conn)`; `List.erase`
of an absent element is the identity, matching the membership guard. -/
def removeEach (toRemove l : List Nat) : List Nat :=
  toRemove.foldl (fun acc c => acc.erase c) l

/-- `Action.execute` (diagram_actions.py).  Returns the action (updated in
the `DeleteNodeAction` case, whose `execute` re-captures the incident
connections) together with the mutated scene. -/
def execAction (a : Action) (s : Scene) : Action × Scene :=
  match a with
  | .addNode n =>
      (a, if n ∈ s.nodes then s else { s with nodes := s.nodes ++ [n] })
  | .deleteNode n _ =>
      if n ∈ s.nodes then
        let cap := s.conns.filter (fun c => s.refs c n)
        (.deleteNode n cap,
          { s with nodes := s.nodes.erase n, conns := removeEach cap s.conns })
      else (a, s)
  | .addConnection c =>
      (a, if c ∈ s.conns then s else { s with conns := s.conns ++ [c] })
  | .deleteConnection c =>
      (a, { s with conns := s.conns.erase c })
  | .moveNode n _ newPos =>
      (a, s.setNode n { s.nheap n with pos := newPos })
  | .changeNodeColor n _ newColor =>
      (a, s.setNode n { s.nheap n with color := newColor })
  | .changeNodeClass n _ newClass _ newColor =>
      (a, s.setNode n { s.nheap n with nclass := newClass, color := newColor })
  | .changeConnectionColor c _ newColor =>
      (a, s.setConn c { s.cheap c with color := newColor })
  | .addImage i =>
      (a, if i ∈ s.images then s else { s with images := s.images ++ [i] })
  | .deleteImage i =>
      (a, { s with images := s.images.erase i })
  | .moveImage i _ newPos =>
      (a, s.setImage i { s.iheap i with pos := newPos })
  | .resizeImage i _ _ newW newH =>
      (a, s.setImage i { s.iheap i with width := newW, height := newH })
  | .createModule ns imgs mid _ _ _ =>
      let s1 := ns.foldl
        (fun sc n => sc.setNode n
          { sc.nheap n with locked := true, moduleId := some mid }) s
      (a, imgs.foldl
        (fun sc i => sc.setImage i { sc.iheap i with mid := some mid }) s1)
  | .moveModule _ newN _ newI _ newW =>
      let s1 := newN.foldl (fun sc p => sc.setNode p.1
        { sc.nheap p.1 with pos := p.2 }) s
      let s2 := newI.foldl (fun sc p => sc.setImage p.1
        { sc.iheap p.1 with pos := p.2 }) s1
      (a, newW.foldl (fun sc p => sc.setConn p.1
        { sc.cheap p.1 with waypoints := p.2 }) s2)
  | .duplicateModule ns imgs cs =>
      let s1 := ns.foldl
        (fun sc n => if n ∈ sc.nodes then sc
          else { sc with nodes := sc.nodes ++ [n] }) s
      let s2 := imgs.foldl
        (fun sc i => if i ∈ sc.images then sc
          else { sc with images := sc.images ++ [i] }) s1
      (a, cs.foldl
        (fun sc c => if c ∈ sc.conns then sc
          else { sc with conns := sc.conns ++ [c] }) s2)
  | .addWaypoint c wp idx =>
      (a, s.setConn c
        { s.cheap c with waypoints := waypointInsert (s.cheap c).waypoints wp idx })
  | .removeWaypoint c wp idx =>
      (a, s.setConn c
        { s.cheap c with waypoints := waypointPop (s.cheap c).waypoints wp idx })

/-- `Action.undo` (diagram_actions.py). -/
def undoAction (a : Action) (s : Scene) : Scene :=
  match a with
  | .addNode n =>
      if n ∈ s.nodes then
        { s with nodes := s.nodes.erase n,
                 conns := s.conns.filter (fun c => !(s.refs c n)) }
      else s
  | .deleteNode n cap =>
      let s1 := if n ∈ s.nodes then s else { s with nodes := s.nodes ++ [n] }
      cap.foldl
        (fun sc c => if c ∈ sc.conns then sc
          else { sc with conns := sc.conns ++ [c] }) s1
  | .addConnection c =>
      { s with conns := s.conns.erase c }
  | .deleteConnection c =>
      if c ∈ s.conns then s else { s with conns := s.conns ++ [c] }
  | .moveNode n oldPos _ =>
      s.setNode n { s.nheap n with pos := oldPos }
  | .changeNodeColor n oldColor _ =>
      s.setNode n { s.nheap n with color := oldColor }
  | .changeNodeClass n oldClass _ oldColor _ =>
      s.setNode n { s.nheap n with nclass := oldClass, color := oldColor }
  | .changeConnectionColor c oldColor _ =>
      s.setConn c { s.cheap c with color := oldColor }
  | .addImage i =>
      { s with images := s.images.erase i }
  | .deleteImage i =>
      if i ∈ s.images then s else { s with images := s.images ++ [i] }
  | .moveImage i oldPos _ =>
      s.setImage i { s.iheap i with pos := oldPos }
  | .resizeImage i oldW oldH _ _ =>
      s.setImage i { s.iheap i with width := oldW, height := oldH }
  | .createModule ns imgs _ origLocked origMid origImgMid =>
      let s1 := ns.foldl
        (fun sc n => sc.setNode n
          { sc.nheap n with locked := (alookup origLocked n).getD false,
                            moduleId := (alookup origMid n).getD none }) s
      imgs.foldl
        (fun sc i => sc.setImage i
          { sc.iheap i with mid := (alookup origImgMid i).getD none }) s1
  | .moveModule oldN _ oldI _ oldW _ =>
      let s1 := oldN.foldl (fun sc p => sc.setNode p.1
        { sc.nheap p.1 with pos := p.2 }) s
      let s2 := oldI.foldl (fun sc p => sc.setImage p.1
        { sc.iheap p.1 with pos := p.2 }) s1
      oldW.foldl (fun sc p => sc.setConn p.1
        { sc.cheap p.1 with waypoints := p.2 }) s2
  | .duplicateModule ns imgs cs =>
      let s1 := ns.foldl (fun sc n => { sc with nodes := sc.nodes.erase n }) s
      let s2 := imgs.foldl (fun sc i => { sc with images := sc.images.erase i }) s1
      cs.foldl (fun sc c => { sc with conns := sc.conns.erase c }) s2
  | .addWaypoint c wp idx =>
      s.setConn c
        { s.cheap c with waypoints := waypointPop (s.cheap c).waypoints wp idx }
  | .removeWaypoint c wp idx =>
      s.setConn c
        { s.cheap c with waypoints := waypointInsert (s.cheap c).waypoints wp idx }

/-!
### The command log (`diagram_canvas.py`, lines 1309–1343)

The canvas owns the scene and the two stacks.  Python appends/pops at the end
of its stack lists; we keep the top of each stack at the head, an orientation
change only.
-/

structure Canvas where
  scene : Scene
  undoStack : List Action
  redoStack : List Action

/-- `DiagramCanvas.execute_action`: execute, push onto the undo stack, clear
the redo stack. -/
def executeAction (cv : Canvas) (a : Action) : Canvas :=
  let p := execAction a cv.scene
  { scene := p.2, undoStack := p.1 :: cv.undoStack, redoStack := [] }

/-- `DiagramCanvas.undo`: pop the undo stack (no-op when empty), run the
action's `undo`, push it onto the redo stack. -/
def undoCanvas (cv : Canvas) : Canvas :=
  match cv.undoStack with
  | [] => cv
  | a :: rest =>
      { scene := undoAction a cv.scene, undoStack := rest,
        redoStack := a :: cv.redoStack }

/-- `DiagramCanvas.redo`: pop the redo stack (no-op when empty), run the
action's `execute`, push it onto the undo stack. -/
def redoCanvas (cv : Canvas) : Canvas :=
  match cv.redoStack with
  | [] => cv
  | a :: rest =>
      let p := execAction a cv.scene
      { scene := p.2, undoStack := p.1 :: cv.undoStack, redoStack := rest }

/-- Run a list of commands through `execute_action` in order. -/
def executeAll (cv : Canvas) : List Action → Canvas
  | [] => cv
  | a :: rest => executeAll (executeAction cv a) rest

/-- `n` consecutive calls to `DiagramCanvas.undo`. -/
def undoN : Nat → Canvas → Canvas
  | 0, cv => cv
  | n + 1, cv => undoN n (undoCanvas cv)

/-- `n` consecutive calls to `DiagramCanvas.redo`. -/
def redoN : Nat → Canvas → Canvas
  | 0, cv => cv
  | n + 1, cv => redoN n (redoCanvas cv)

end WireDiagram

namespace WireDiagram

attribute [ext] Scene Canvas

/-! ### Small helpers about heap updates and list surgery -/

theorem setNode_self (s : Scene) (n : Nat) : s.setNode n (s.nheap n) = s := by
  ext k <;> simp [Scene.setNode]
  by_cases h : k = n <;> simp [h]

theorem setConn_self (s : Scene) (c : Nat) : s.setConn c (s.cheap c) = s := by
  ext k <;> simp [Scene.setConn]
  by_cases h : k = c <;> simp [h]

theorem setImage_self (s : Scene) (i : Nat) : s.setImage i (s.iheap i) = s := by
  ext k <;> simp [Scene.setImage]
  by_cases h : k = i <;> simp [h]

theorem removeEach_cons_of_ne {toRemove : List Nat} {x : Nat} (l : List Nat)
    (h : ∀ c ∈ toRemove, c ≠ x) :
    removeEach toRemove (x :: l) = x :: removeEach toRemove l := by
  induction toRemove generalizing l with
  | nil => rfl
  | cons c cs ih =>
      have hcx : c ≠ x := h c (by simp)
      have : (x :: l).erase c = x :: l.erase c :=
        List.erase_cons_tail (by simp [BEq.beq]; exact fun hh => (hcx hh.symm).elim)
      simp only [removeEach, List.foldl_cons] at *
      rw [this]
      exact ih _ (fun d hd => h d (by simp [hd]))

/-- Removing (first occurrence of) every element of `l.filter p` from `l`
leaves exactly the elements failing `p`, in order. -/
theorem removeEach_filter (p : Nat → Bool) (l : List Nat) :
    removeEach (l.filter p) l = l.filter (fun c => !(p c)) := by
  induction l with
  | nil => rfl
  | cons x xs ih =>
      by_cases hx : p x
      · have h1 : (x :: xs).filter p = x :: xs.filter p := by simp [hx]
        have h2 : (x :: xs).erase x = xs := by simp
        rw [h1]
        simp only [removeEach, List.foldl_cons] at *
        rw [h2, ih]
        simp [hx]
      · have h1 : (x :: xs).filter p = xs.filter p := by simp [hx]
        rw [h1, removeEach_cons_of_ne xs, ih]
        · simp [hx]
        · intro c hc hcx
          subst hcx
          exact hx (List.of_mem_filter hc)

/-! ### C4 — command log invariants -/

/-- c4: Executing any new command via `execute_action` clears the redo
stack, so an immediately following `redo()` is a no-op that changes nothing;
and `undo()` on an empty undo stack / `redo()` on an empty redo stack are
no-ops (total functions, never exceptions). -/
theorem c4_redo_invalidation_and_empty_stack_noop (cv : Canvas) (a : Action) :
    (executeAction cv a).redoStack = [] ∧
    redoCanvas (executeAction cv a) = executeAction cv a ∧
    undoCanvas { cv with undoStack := [] } = { cv with undoStack := [] } ∧
    redoCanvas { cv with redoStack := [] } = { cv with redoStack := [] } :=
  ⟨rfl, rfl, rfl, rfl⟩

/-! ### C5 — cascade deletion -/

/-- c5: Executing `DeleteNodeAction` on a node `A` present in the scene
removes exactly the connections referencing `A` as either endpoint (and no
others), and removes `A` (only) from the node list — so any other nodes
remain. -/
theorem c5_delete_node_cascades (s : Scene) (A : Nat) (cap : List Nat)
    (hA : A ∈ s.nodes) :
    (execAction (.deleteNode A cap) s).2.conns
        = s.conns.filter (fun c => !(s.refs c A)) ∧
    (execAction (.deleteNode A cap) s).2.nodes = s.nodes.erase A := by
  simp only [execAction, if_pos hA]
  exact ⟨removeEach_filter _ _, trivial⟩

/-- Arbitrary concrete attribute records used by the concrete test scenes. -/
def nd0 : NodeData :=
  { name := "A", pos := (0, 0), nclass := "5V", color := ⟨255, 0, 0⟩,
    locked := false, moduleId := none }

def cd0 : ConnData :=
  { n1 := 0, n2 := 0, color := ⟨0, 0, 0⟩, ortho := false, waypoints := [] }

def id0 : ImgData :=
  { path := "img.png", pos := (0, 0), width := 100, height := 100,
    rotation := 0, mid := none }

/-- Scene with nodes A=0, B=1, C=2 and connections A–B (id 10), A–C (id 11). -/
def sceneC5 : Scene :=
  { nodes := [0, 1, 2], conns := [10, 11], images := [],
    nheap := fun _ => nd0,
    cheap := fun c =>
      if c = 10 then { cd0 with n1 := 0, n2 := 1 }
      else if c = 11 then { cd0 with n1 := 0, n2 := 2 }
      else cd0,
    iheap := fun _ => id0 }

theorem c5_delete_node_cascades_witness :
    0 ∈ sceneC5.nodes ∧
    (execAction (.deleteNode 0 []) sceneC5).2.conns = [] ∧
    (execAction (.deleteNode 0 []) sceneC5).2.nodes = [1, 2] := by
  refine ⟨by decide, ?_, ?_⟩
  · rw [(c5_delete_node_cascades sceneC5 0 [] (by decide)).1]; decide
  · rw [(c5_delete_node_cascades sceneC5 0 [] (by decide)).2]; decide

/-! ### C6 — class gate on `add_connection` -/

/-- `Connection._generate_initial_waypoints`: an L-bend at the horizontal
midpoint (Python `//` is floor division). -/
def genInitialWaypoints (p1 p2 : Pt) : List Pt :=
  let midX := Int.fdiv (p1.1 + p2.1) 2
  [(midX, p1.2), (midX, p2.2)]

/-- `DiagramCanvas.add_connection` (diagram_canvas.py, lines 575–595).
`orthoFlag` stands for `self.orthogonal_routing` and `freshC` is the id of
the `Connection` object the Python code would allocate.  When the two node
classes differ, the method shows a message box and returns before touching
any state; when a connection between the unordered pair already exists it
returns; otherwise it creates the connection (coloured with node1's colour)
and runs it through the command log. -/
def addConnection (cv : Canvas) (n1 n2 freshC : Nat) (orthoFlag : Bool) :
    Canvas :=
  if (cv.scene.nheap n1).nclass ≠ (cv.scene.nheap n2).nclass then cv
  else if cv.scene.conns.any (fun c =>
      let d := cv.scene.cheap c
      ((d.n1 == n1) && (d.n2 == n2)) || ((d.n1 == n2) && (d.n2 == n1))) then cv
  else
    let p1 := (cv.scene.nheap n1).pos
    let p2 := (cv.scene.nheap n2).pos
    let data : ConnData :=
      { n1 := n1, n2 := n2, color := (cv.scene.nheap n1).color,
        ortho := orthoFlag,
        waypoints := if orthoFlag then genInitialWaypoints p1 p2 else [] }
    executeAction { cv with scene := cv.scene.setConn freshC data }
      (.addConnection freshC)

/-- c6: When the two nodes' classes differ, `add_connection` leaves the
canvas completely unchanged — the connection list is not mutated and no
command is pushed onto the undo stack — regardless of any selection state
(selection is not part of the scene state and is never read here). -/
theorem c6_class_gate (cv : Canvas) (n1 n2 freshC : Nat) (orthoFlag : Bool)
    (h : (cv.scene.nheap n1).nclass ≠ (cv.scene.nheap n2).nclass) :
    addConnection cv n1 n2 freshC orthoFlag = cv := by
  unfold addConnection
  rw [if_pos h]

def sceneC6 : Scene :=
  { nodes := [0, 1], conns := [], images := [],
    nheap := fun n => if n = 0 then nd0 else { nd0 with nclass := "GRD" },
    cheap := fun _ => cd0, iheap := fun _ => id0 }

theorem c6_class_gate_witness :
    (sceneC6.nheap 0).nclass ≠ (sceneC6.nheap 1).nclass ∧
    addConnection ⟨sceneC6, [], []⟩ 0 1 20 false = ⟨sceneC6, [], []⟩ :=
  ⟨by decide, c6_class_gate ⟨sceneC6, [], []⟩ 0 1 20 false (by decide)⟩

end WireDiagram

namespace WireDiagram

/-! ### C9 — totality of the waypoint actions -/

theorem setConn_setConn (s : Scene) (c : Nat) (d d' : ConnData) :
    (s.setConn c d).setConn c d' = s.setConn c d' := by
  ext k <;> simp [Scene.setConn]
  by_cases h : k = c <;> simp [h]

theorem cheap_setConn_self (s : Scene) (c : Nat) (d : ConnData) :
    ((s.setConn c d).cheap c) = d := by
  simp [Scene.setConn]

/-- Popping the index just inserted at undoes the insertion exactly, for
every index (in or out of range) and every list. -/
theorem waypointPop_waypointInsert (ws : List Pt) (wp : Pt) (i : Nat) :
    waypointPop (waypointInsert ws wp i) wp i = ws := by
  unfold waypointInsert waypointPop
  by_cases h : i ≤ ws.length
  · rw [if_pos h]
    have hlen : (ws.insertIdx i wp).length = ws.length + 1 :=
      List.length_insertIdx i ws h
    have hget : (ws.insertIdx i wp)[i]? = some wp := by
      rw [List.getElem?_eq_getElem (by omega)]
      exact congrArg some (List.getElem_insertIdx_self ws wp i h)
    rw [if_pos ⟨by omega, hget⟩]
    exact List.eraseIdx_insertIdx i ws
  · rw [if_neg h, if_neg]
    intro hcon
    exact absurd hcon.1 (by omega)

theorem undoAddWaypoint_setConn (t : Scene) (c : Nat) (wp : Pt) (i : Nat)
    (d : ConnData) :
    undoAction (.addWaypoint c wp i) (t.setConn c d)
      = t.setConn c { d with waypoints := waypointPop d.waypoints wp i } := by
  show (t.setConn c d).setConn c
      { (t.setConn c d).cheap c with
        waypoints := waypointPop ((t.setConn c d).cheap c).waypoints wp i } = _
  rw [cheap_setConn_self, setConn_setConn]

/-- Executing then undoing an `AddWaypointAction` is the exact identity on
every scene, whatever the stored index. -/
theorem addWaypoint_roundtrip (c : Nat) (wp : Pt) (i : Nat) (t : Scene) :
    undoAction (.addWaypoint c wp i) (execAction (.addWaypoint c wp i) t).2 = t := by
  have h1 : (execAction (.addWaypoint c wp i) t).2
      = t.setConn c { t.cheap c with
          waypoints := waypointInsert (t.cheap c).waypoints wp i } := rfl
  rw [h1, undoAddWaypoint_setConn]
  show t.setConn c { t.cheap c with
      waypoints := waypointPop (waypointInsert (t.cheap c).waypoints wp i) wp i } = t
  rw [waypointPop_waypointInsert]
  exact setConn_self t c

/-- c9: the four waypoint methods are total and never index outside the
waypoint list: (1) when the stored index/waypoint no longer matches the
connection's current list, `AddWaypointAction.undo` removes nothing (rather
than removing the wrong waypoint), and (2) so does
`RemoveWaypointAction.execute`; (3) executing then undoing `AddWaypointAction`
is the exact identity on every scene; (4) a stored index beyond the current
list length makes the insertions (`AddWaypointAction.execute`,
`RemoveWaypointAction.undo`) no-ops instead of out-of-bounds accesses. -/
theorem c9_waypoint_actions_safe (s : Scene) (c : Nat) (wp : Pt) (i : Nat)
    (hmis : ¬(i < (s.cheap c).waypoints.length ∧
              (s.cheap c).waypoints[i]? = some wp)) :
    undoAction (.addWaypoint c wp i) s = s ∧
    (execAction (.removeWaypoint c wp i) s).2 = s ∧
    (∀ t : Scene,
      undoAction (.addWaypoint c wp i) (execAction (.addWaypoint c wp i) t).2 = t) ∧
    ((s.cheap c).waypoints.length < i →
      (execAction (.addWaypoint c wp i) s).2 = s ∧
      undoAction (.removeWaypoint c wp i) s = s) := by
  have hpop : waypointPop (s.cheap c).waypoints wp i = (s.cheap c).waypoints := by
    unfold waypointPop
    rw [if_neg hmis]
  refine ⟨?_, ?_, ?_, ?_⟩
  · show s.setConn c { s.cheap c with
        waypoints := waypointPop (s.cheap c).waypoints wp i } = s
    rw [hpop]
    exact setConn_self s c
  · show s.setConn c { s.cheap c with
        waypoints := waypointPop (s.cheap c).waypoints wp i } = s
    rw [hpop]
    exact setConn_self s c
  · exact addWaypoint_roundtrip c wp i
  · intro hi
    have hins : waypointInsert (s.cheap c).waypoints wp i = (s.cheap c).waypoints := by
      unfold waypointInsert
      rw [if_neg (by omega)]
    constructor
    · show s.setConn c { s.cheap c with
          waypoints := waypointInsert (s.cheap c).waypoints wp i } = s
      rw [hins]
      exact setConn_self s c
    · show s.setConn c { s.cheap c with
          waypoints := waypointInsert (s.cheap c).waypoints wp i } = s
      rw [hins]
      exact setConn_self s c

def sceneC9 : Scene :=
  { nodes := [0, 1], conns := [0], images := [],
    nheap := fun _ => nd0,
    cheap := fun _ => { cd0 with
      n1 := 0, n2 := 1, ortho := true, waypoints := [((1 : Int), (1 : Int))] },
    iheap := fun _ => id0 }

theorem c9_waypoint_actions_safe_witness :
    (¬(5 < (sceneC9.cheap 0).waypoints.length ∧
       (sceneC9.cheap 0).waypoints[5]? = some (9, 9))) ∧
    undoAction (.addWaypoint 0 (9, 9) 5) sceneC9 = sceneC9 ∧
    (execAction (.removeWaypoint 0 (9, 9) 5) sceneC9).2 = sceneC9 ∧
    (∀ t : Scene,
      undoAction (.addWaypoint 0 (9, 9) 5)
        (execAction (.addWaypoint 0 (9, 9) 5) t).2 = t) ∧
    ((execAction (.addWaypoint 0 (9, 9) 5) sceneC9).2 = sceneC9 ∧
      undoAction (.removeWaypoint 0 (9, 9) 5) sceneC9 = sceneC9) := by
  have h := c9_waypoint_actions_safe sceneC9 0 (9, 9) 5 (by decide)
  exact ⟨by decide, h.1, h.2.1, h.2.2.1, h.2.2.2 (by decide)⟩

/-! ### C2 — module dragging and the recorded `MoveModuleAction`

`mouseMoveEvent` (diagram_canvas.py, lines 447–487), when the dragged node is
a locked module node, shifts every node of the instance by the move delta and
shifts the first/last waypoint of each attached orthogonal connection; the
images of the instance move too.  At release (lines 517–544) the code records
a `MoveModuleAction` built from the node/image position dictionaries only —
the `old_positions`/`new_positions` dictionaries it passes contain no
`"waypoints"` key, so the action's waypoint maps are empty.
-/

/-- `wps[0] = wps[0] + delta` guarded by `len > 0`. -/
def bumpFirst (ws : List Pt) (delta : Pt) : List Pt :=
  match ws with
  | [] => []
  | w :: rest => (w + delta) :: rest

/-- `wps[-1] = wps[-1] + delta`. -/
def bumpLast (ws : List Pt) (delta : Pt) : List Pt :=
  ws.set (ws.length - 1) (ws.getLastD (0, 0) + delta)

/-- The inner loop of the module-drag branch of `mouseMoveEvent`: for one
moved node, shift the boundary waypoints of attached orthogonal
connections. -/
def dragNodeConns (s : Scene) (n : Nat) (delta : Pt) : Scene :=
  s.conns.foldl (fun sc c =>
    if (sc.cheap c).ortho then
      let sc1 :=
        if (sc.cheap c).n1 = n ∧ (sc.cheap c).waypoints.length > 0 then
          sc.setConn c
            { sc.cheap c with waypoints := bumpFirst (sc.cheap c).waypoints delta }
        else sc
      if (sc1.cheap c).n2 = n ∧ (sc1.cheap c).waypoints.length > 1 then
        sc1.setConn c
          { sc1.cheap c with waypoints := bumpLast (sc1.cheap c).waypoints delta }
      else sc1
    else sc) s

/-- One `mouseMoveEvent` step of a module drag by `delta`: move every node of
instance `mid` (shifting attached orthogonal waypoints) and every image of
the instance. -/
def moduleDragMove (s : Scene) (mid : String) (delta : Pt) : Scene :=
  let s1 := s.nodes.foldl (fun sc n =>
    if (sc.nheap n).moduleId = some mid then
      dragNodeConns
        (sc.setNode n { sc.nheap n with pos := (sc.nheap n).pos + delta }) n delta
    else sc) s
  s1.images.foldl (fun sc i =>
    if (sc.iheap i).mid = some mid then
      sc.setImage i { sc.iheap i with pos := (sc.iheap i).pos + delta }
    else sc) s1

/-- `mouseReleaseEvent`, lines 517–544: if any node or image of the dragged
module moved relative to the positions captured at mouse press, record a
`MoveModuleAction` whose old/new maps are the captured and current node and
image positions — and, as in the source, no waypoint maps. -/
def commitModuleDrag (cv : Canvas) (startN startI : List (Nat × Pt)) : Canvas :=
  let moved := startN.any (fun p => (cv.scene.nheap p.1).pos ≠ p.2) ||
               startI.any (fun p => (cv.scene.iheap p.1).pos ≠ p.2)
  if moved then
    let newN := startN.map (fun p => (p.1, (cv.scene.nheap p.1).pos))
    let newI := startI.map (fun p => (p.1, (cv.scene.iheap p.1).pos))
    executeAction cv (.moveModule startN newN startI newI [] [])
  else cv

/-- The positions captured at mouse press for the nodes of instance `mid`
(`self.module_drag_start_positions`). -/
def captureModuleNodes (s : Scene) (mid : String) : List (Nat × Pt) :=
  (s.nodes.filter (fun n => (s.nheap n).moduleId = some mid)).map
    (fun n => (n, (s.nheap n).pos))

/-- The image positions captured at mouse press
(`self.module_drag_start_image_positions`). -/
def captureModuleImages (s : Scene) (mid : String) : List (Nat × Pt) :=
  (s.images.filter (fun i => (s.iheap i).mid = some mid)).map
    (fun i => (i, (s.iheap i).pos))

/-- Module "m": nodes 0 at (0,0) and 1 at (0,10), locked, joined by an
orthogonal connection (id 10) with waypoints [(5,0),(5,10)]. -/
def sceneC2 : Scene :=
  { nodes := [0, 1], conns := [10], images := [],
    nheap := fun n =>
      if n = 0 then { nd0 with pos := (0, 0), locked := true, moduleId := some "m" }
      else { nd0 with pos := (0, 10), locked := true, moduleId := some "m" },
    cheap := fun _ => { cd0 with
      n1 := 0, n2 := 1, ortho := true,
      waypoints := [((5 : Int), (0 : Int)), ((5 : Int), (10 : Int))] },
    iheap := fun _ => id0 }

def dragC2 : Scene := moduleDragMove sceneC2 "m" ((7 : Int), (0 : Int))

def committedC2 : Canvas :=
  commitModuleDrag ⟨dragC2, [], []⟩
    (captureModuleNodes sceneC2 "m") (captureModuleImages sceneC2 "m")

/-- c2: dragging module "m" by (7,0) moves both nodes and both boundary
waypoints of the attached orthogonal connection, and the release records a
`MoveModuleAction` — but with empty waypoint maps, so `undo()` restores the
node positions while leaving the connection's waypoints at their dragged
values (12,·) instead of the pre-drag (5,·): the recorded command does not
capture before/after waypoint maps, and undoing a module move
desynchronizes the wire routing. -/
theorem c2_movemodule_undo_leaves_waypoints :
    (dragC2.nheap 0).pos = (7, 0) ∧
    (dragC2.nheap 1).pos = (7, 10) ∧
    (dragC2.cheap 10).waypoints = [(12, 0), (12, 10)] ∧
    committedC2.undoStack =
      [.moveModule [(0, ((0 : Int), (0 : Int))), (1, ((0 : Int), (10 : Int)))]
        [(0, ((7 : Int), (0 : Int))), (1, ((7 : Int), (10 : Int)))] [] [] [] []] ∧
    ((undoCanvas committedC2).scene.nheap 0).pos = (0, 0) ∧
    ((undoCanvas committedC2).scene.nheap 1).pos = (0, 10) ∧
    ((undoCanvas committedC2).scene.cheap 10).waypoints = [(12, 0), (12, 10)] ∧
    ((undoCanvas committedC2).scene.cheap 10).waypoints ≠
      (sceneC2.cheap 10).waypoints := by
  decide

end WireDiagram

namespace WireDiagram

/-! ### C3 — module placement (`main.py`, `on_load_module`, lines 645–694)

String operations are modelled over the underlying character lists so that
every definition evaluates by kernel reduction.  `natRepr` is Python's
`str()` of a non-negative integer (plain decimal digits); the fuel argument
makes the recursion structural.
-/

def digitChar (n : Nat) : Char := Char.ofNat (48 + n)

def natReprAux : Nat → Nat → List Char
  | 0, _ => []
  | fuel + 1, n =>
      if n < 10 then [digitChar n]
      else natReprAux fuel (n / 10) ++ [digitChar (n % 10)]

def natRepr (n : Nat) : String := ⟨natReprAux (n + 1) n⟩

/-- Python `s.startswith(p)`. -/
def startsWithStr (s p : String) : Bool := p.data.isPrefixOf s.data

/-- A template node of a saved module (`Module.from_dict`): name, position,
class and colour; template nodes carry no lock or module id. -/
structure TemplateNode where
  name : String
  pos : Pt
  nclass : String
  color : Color
deriving DecidableEq, Repr

/-- A saved module template: id, display name, template nodes and images. -/
structure ModuleT where
  mid : String
  name : String
  nodes : List TemplateNode
  images : List ImgData
deriving Repr

/-- The placement handler `load_selected` inside `on_load_module`:

  * `existing_instances` counts the NODES whose `module_id` starts with
    `"<id>_inst_"` (Python evaluates `n.module_id.startswith(...)` on every
    node, which raises `AttributeError` when any node's `module_id` is
    `None`; that failure is modelled as `none`);
  * the new instance id is `"<id>_inst_<existing_instances+1>"` and every
    copied position is offset by `(50*existing_instances, 50*existing_instances)`;
  * each template node is copied to a fresh node object (ids `freshN`,
    `freshN+1`, …) renamed `"<name>_inst<k>"`, tagged with the instance id
    and locked, and appended to the canvas node list (not via the command
    log); each template image is copied (ids `freshI`, …) with the
    constructor defaults (`rotation = 0`), tagged and appended. -/
def loadModulePlacement (s : Scene) (m : ModuleT) (freshN freshI : Nat) :
    Option Scene :=
  if s.nodes.any (fun n => (s.nheap n).moduleId = none) then none
  else
    let existing := (s.nodes.filter (fun n =>
      startsWithStr (((s.nheap n).moduleId).getD "") (m.mid ++ "_inst_"))).length
    let instNum := existing + 1
    let uid := m.mid ++ "_inst_" ++ natRepr instNum
    let off : Pt := ((50 : Int) * existing, (50 : Int) * existing)
    let s1 := (m.nodes.enum.foldl (fun sc p =>
      let k := freshN + p.1
      let sc1 := sc.setNode k
        { name := p.2.name ++ "_inst" ++ natRepr instNum,
          pos := p.2.pos + off, nclass := p.2.nclass, color := p.2.color,
          locked := true, moduleId := some uid }
      { sc1 with nodes := sc1.nodes ++ [k] }) s)
    some (m.images.enum.foldl (fun sc p =>
      let k := freshI + p.1
      let sc1 := sc.setImage k
        { path := p.2.path, pos := p.2.pos + off, width := p.2.width,
          height := p.2.height, rotation := 0, mid := some uid }
      { sc1 with images := sc1.images ++ [k] }) s1)

/-- A 2-node module template named "Gnd", as in the spec's concrete
scenario. -/
def tmplC3 : ModuleT :=
  { mid := "m", name := "Gnd",
    nodes := [
      { name := "Gnd", pos := (0, 0), nclass := "GRD", color := ⟨0, 0, 255⟩ },
      { name := "Gnd", pos := (10, 0), nclass := "GRD", color := ⟨0, 0, 255⟩ }],
    images := [] }

def sceneEmpty : Scene :=
  { nodes := [], conns := [], images := [],
    nheap := fun _ => nd0, cheap := fun _ => cd0, iheap := fun _ => id0 }

def sceneC3a : Scene := (loadModulePlacement sceneEmpty tmplC3 0 0).getD sceneEmpty

def sceneC3b : Scene := (loadModulePlacement sceneC3a tmplC3 10 10).getD sceneEmpty

/-- c3: placing the two-node template twice on an empty canvas.  The first
placement yields instance id "m_inst_1" with offset (0,0) and two locked
nodes, as the claim states; but the second placement counts the two NODES
tagged "m_inst_1" (not the one existing instance), so it produces instance
id "m_inst_3" — not "m_inst_2" — and offset (100,100) — not (50,50). -/
theorem c3_placement_counts_nodes_not_instances :
    (loadModulePlacement sceneEmpty tmplC3 0 0).isSome ∧
    sceneC3a.nodes = [0, 1] ∧
    (sceneC3a.nheap 0).moduleId = some "m_inst_1" ∧
    (sceneC3a.nheap 1).moduleId = some "m_inst_1" ∧
    (sceneC3a.nheap 0).locked = true ∧
    (sceneC3a.nheap 1).locked = true ∧
    (sceneC3a.nheap 0).pos = (0, 0) ∧
    (sceneC3a.nheap 1).pos = (10, 0) ∧
    (loadModulePlacement sceneC3a tmplC3 10 10).isSome ∧
    sceneC3b.nodes = [0, 1, 10, 11] ∧
    (sceneC3b.nheap 10).moduleId = some "m_inst_3" ∧
    (sceneC3b.nheap 11).moduleId = some "m_inst_3" ∧
    (sceneC3b.nheap 10).locked = true ∧
    (sceneC3b.nheap 11).locked = true ∧
    (sceneC3b.nheap 10).pos = (100, 100) ∧
    (sceneC3b.nheap 11).pos = (110, 100) := by
  decide

end WireDiagram

namespace WireDiagram

/-! ### C7 — persistence round-trip
(`DiagramCanvas.export_diagram` / `import_diagram`, lines 1484–1636)

The structures below are the shape of the document `export_diagram`
produces; every key it writes is always present, so on a re-imported export
each of `import_diagram`'s `"key" in data` / `.get` guards takes its
key-present branch (they exist for foreign documents).  The `metadata` block
(grid/zoom/pan) is written from and read into canvas-controller settings
that are not part of the scene state and outside this claim. -/

structure NodeJson where
  name : String
  x : Int
  y : Int
  nclass : String
  color : Color
  moduleId : Option String
  locked : Bool
deriving DecidableEq, Repr

structure ConnJson where
  node1 : Nat
  node2 : Nat
  color : Color
  orthogonal : Bool
  waypoints : List Pt
deriving DecidableEq, Repr

structure DiagramJson where
  nodes : List NodeJson
  connections : List ConnJson
  images : List ImgData
deriving DecidableEq, Repr

def exportNodeJson (d : NodeData) : NodeJson :=
  { name := d.name, x := d.pos.1, y := d.pos.2, nclass := d.nclass,
    color := d.color, moduleId := d.moduleId, locked := d.locked }

/-- `export_diagram`: nodes with their attributes; connections with endpoint
NODE-LIST INDICES (`self.nodes.index(...)`, which requires the endpoints to
be present in the node list), colour, routing flag and waypoints; images via
`Image.to_dict`. -/
def exportDiagram (s : Scene) : DiagramJson :=
  { nodes := s.nodes.map (fun n => exportNodeJson (s.nheap n)),
    connections := s.conns.map (fun c =>
      let d := s.cheap c
      { node1 := s.nodes.indexOf d.n1, node2 := s.nodes.indexOf d.n2,
        color := d.color, orthogonal := d.ortho, waypoints := d.waypoints }),
    images := s.images.map (fun i => s.iheap i) }

def nodeFromJson (nd : NodeJson) : NodeData :=
  { name := nd.name, pos := (nd.x, nd.y), nclass := nd.nclass,
    color := nd.color, locked := nd.locked, moduleId := nd.moduleId }

/-- Rebuilding one connection: the `Connection` constructor generates an
initial L-bend for an orthogonal connection and leaves waypoints empty
otherwise; the stored colour always overwrites the default, and the stored
waypoints overwrite the generated ones exactly when the connection is
orthogonal (`if "waypoints" in conn_data and is_orthogonal`). -/
def connFromJson (cj : ConnJson) : ConnData :=
  { n1 := cj.node1, n2 := cj.node2, color := cj.color, ortho := cj.orthogonal,
    waypoints := if cj.orthogonal then cj.waypoints else [] }

/-- `import_diagram`: clears the canvas, then builds fresh node objects in
order (ids `0..`, so the rebuilt `node_map` sends index `i` to the node with
id `i`), skips connections whose stored indices are out of range of the
node map, and appends images via `Image.from_dict`. -/
def importDiagram (dj : DiagramJson) : Scene :=
  let valid := dj.connections.filter (fun cj =>
    decide (cj.node1 < dj.nodes.length) && decide (cj.node2 < dj.nodes.length))
  { nodes := List.range dj.nodes.length,
    conns := List.range valid.length,
    images := List.range dj.images.length,
    nheap := fun k => ((dj.nodes[k]?).map nodeFromJson).getD nd0,
    cheap := fun k => ((valid[k]?).map connFromJson).getD cd0,
    iheap := fun k => (dj.images[k]?).getD id0 }

/-- The observable scene contents: attribute records of the listed nodes in
list order. -/
def viewNodes (s : Scene) : List NodeData := s.nodes.map s.nheap

/-- The observable connections: endpoints identified by their index in the
node list (hence, given `viewNodes` agreement, by nodes of equal name,
position and all other attributes), with colour, routing flag and
waypoints. -/
def viewConns (s : Scene) : List (Nat × Nat × Color × Bool × List Pt) :=
  s.conns.map (fun c =>
    let d := s.cheap c
    (s.nodes.indexOf d.n1, s.nodes.indexOf d.n2, d.color, d.ortho, d.waypoints))

def viewImages (s : Scene) : List ImgData := s.images.map s.iheap

theorem range_indexOf {n k : Nat} (hk : k < n) :
    (List.range n).indexOf k = k := by
  have h := List.indexOf_getElem (List.nodup_range n) k (by simpa using hk)
  simpa using h

/-- c7: for any scene whose connection endpoints are present in the node
list (what `self.nodes.index` requires), whose direct connections carry no
waypoints (the data-model invariant: waypoints exist only for orthogonal
connections), and which contains at least one node, one connection, one
image and one orthogonal connection with 2+ waypoints,
`import_diagram(export_diagram())` reproduces the same nodes (name,
position, class, colour — and module id and lock), the same connections
(endpoints identified by node-list index, i.e. by matching name+position
node records, colour, orthogonal flag, waypoint list) and the same images
(path, position, width/height, rotation, module instance id). -/
theorem c7_export_import_roundtrip (s : Scene)
    (hends : ∀ c ∈ s.conns, (s.cheap c).n1 ∈ s.nodes ∧ (s.cheap c).n2 ∈ s.nodes)
    (hwp : ∀ c ∈ s.conns, (s.cheap c).ortho = false → (s.cheap c).waypoints = [])
    (_hne : s.nodes ≠ [] ∧ s.conns ≠ [] ∧ s.images ≠ [])
    (_hortho : ∃ c ∈ s.conns, (s.cheap c).ortho = true ∧
      2 ≤ (s.cheap c).waypoints.length) :
    viewNodes (importDiagram (exportDiagram s)) = viewNodes s ∧
    viewConns (importDiagram (exportDiagram s)) = viewConns s ∧
    viewImages (importDiagram (exportDiagram s)) = viewImages s := by
  have hvalid : (exportDiagram s).connections.filter (fun cj =>
      decide (cj.node1 < (exportDiagram s).nodes.length) &&
      decide (cj.node2 < (exportDiagram s).nodes.length))
      = (exportDiagram s).connections := by
    apply List.filter_eq_self.mpr
    intro cj hcj
    simp only [exportDiagram, List.mem_map] at hcj
    obtain ⟨c, hc, rfl⟩ := hcj
    have h1 := List.indexOf_lt_length.2 (hends c hc).1
    have h2 := List.indexOf_lt_length.2 (hends c hc).2
    simp [exportDiagram, h1, h2]
  refine ⟨?_, ?_, ?_⟩
  · apply List.ext_getElem
    · simp [importDiagram, viewNodes, exportDiagram]
    · intro i h1 h2
      simp only [viewNodes, importDiagram, exportDiagram, List.getElem_map,
        List.getElem_range, List.getElem?_map]
      have hi : i < s.nodes.length := by
        simpa [viewNodes] using h2
      rw [List.getElem?_eq_getElem (by simpa using hi)]
      rfl
  · apply List.ext_getElem
    · simp only [importDiagram, viewConns, List.length_map, List.length_range]
      rw [hvalid]
      simp [exportDiagram]
    · intro j h1 h2
      have hj : j < s.conns.length := by
        simpa [viewConns] using h2
      have hcm : s.conns[j] ∈ s.conns := List.getElem_mem hj
      have hn1 := List.indexOf_lt_length.2 (hends _ hcm).1
      have hn2 := List.indexOf_lt_length.2 (hends _ hcm).2
      simp only [viewConns, importDiagram, List.getElem_map, List.getElem_range,
        hvalid]
      rw [List.getElem?_eq_getElem (by simpa [exportDiagram, hvalid] using hj)]
      simp only [exportDiagram, List.getElem_map, Option.map_some, Option.getD_some,
        connFromJson, List.length_map]
      rcases hortho2 : (s.cheap s.conns[j]).ortho with _ | _
      · have hempty := hwp _ hcm hortho2
        simp [connFromJson, range_indexOf hn1, range_indexOf hn2, hortho2, hempty]
      · simp [connFromJson, range_indexOf hn1, range_indexOf hn2, hortho2]
  · apply List.ext_getElem
    · simp [importDiagram, viewImages, exportDiagram]
    · intro i h1 h2
      have hi : i < s.images.length := by
        simpa [viewImages] using h2
      simp only [viewImages, importDiagram, exportDiagram, List.getElem_map,
        List.getElem_range]
      rw [List.getElem?_eq_getElem (by simpa using hi)]
      simp

end WireDiagram

namespace WireDiagram

/-- Nodes "A" at (0,0) and "B" at (100,0), one orthogonal connection with
two waypoints, one image. -/
def sceneC7 : Scene :=
  { nodes := [0, 1], conns := [5], images := [7],
    nheap := fun n => if n = 0 then nd0 else { nd0 with
      name := "B", pos := (100, 0) },
    cheap := fun _ => { cd0 with
      n1 := 0, n2 := 1, ortho := true,
      waypoints := [((50 : Int), (0 : Int)), ((50 : Int), (20 : Int))] },
    iheap := fun _ => id0 }

theorem c7_export_import_roundtrip_witness :
    (∀ c ∈ sceneC7.conns,
      (sceneC7.cheap c).n1 ∈ sceneC7.nodes ∧ (sceneC7.cheap c).n2 ∈ sceneC7.nodes) ∧
    (∀ c ∈ sceneC7.conns,
      (sceneC7.cheap c).ortho = false → (sceneC7.cheap c).waypoints = []) ∧
    (sceneC7.nodes ≠ [] ∧ sceneC7.conns ≠ [] ∧ sceneC7.images ≠ []) ∧
    (∃ c ∈ sceneC7.conns, (sceneC7.cheap c).ortho = true ∧
      2 ≤ (sceneC7.cheap c).waypoints.length) ∧
    (viewNodes (importDiagram (exportDiagram sceneC7)) = viewNodes sceneC7 ∧
     viewConns (importDiagram (exportDiagram sceneC7)) = viewConns sceneC7 ∧
     viewImages (importDiagram (exportDiagram sceneC7)) = viewImages sceneC7) :=
  ⟨by decide, by decide, by decide, by decide,
    c7_export_import_roundtrip sceneC7 (by decide) (by decide) (by decide)
      (by decide)⟩

end WireDiagram

namespace WireDiagram

/-! ### C8 — `DiagramCanvas.delete_selected` (lines 694–762) -/

/-- Python truthiness of `node.locked and node.module_id`: locked with a
non-empty module id. -/
def moduleTagged (s : Scene) (n : Nat) : Bool :=
  (s.nheap n).locked &&
    (match (s.nheap n).moduleId with
     | none => false
     | some m => !(m == ""))

/-- Python truthiness of `image.module_instance_id`. -/
def imgTagged (s : Scene) (i : Nat) : Bool :=
  match (s.iheap i).mid with
  | none => false
  | some m => !(m == "")

/-- `node.module_id in module_ids_to_delete` (`None in <set of str>` is
False). -/
def midIn (mid : Option String) (ids : List String) : Bool :=
  match mid with
  | none => false
  | some m => ids.contains m

/-- One iteration of the node-deletion loop: `if node in self.nodes:
execute_action(DeleteNodeAction(self, node))`. -/
def delNodeStep (c : Canvas) (n : Nat) : Canvas :=
  if n ∈ c.scene.nodes then executeAction c (.deleteNode n []) else c

/-- One iteration of the connection-deletion loop. -/
def delConnStep (c : Canvas) (k : Nat) : Canvas :=
  if k ∈ c.scene.conns then executeAction c (.deleteConnection k) else c

/-- One iteration of the image-deletion loop: only images that are not
module-tagged are deleted undoably. -/
def delImgStep (c : Canvas) (i : Nat) : Canvas :=
  if i ∈ c.scene.images ∧ imgTagged c.scene i = false then
    executeAction c (.deleteImage i)
  else c

/-- The set `module_ids_to_delete`: instance ids of the selected nodes that
are locked and module-tagged. -/
def moduleIdsOf (s : Scene) (selNodes : List Nat) : List String :=
  (selNodes.filter (fun n => moduleTagged s n)).filterMap
    (fun n => (s.nheap n).moduleId)

/-- `module_nodes_list`: every canvas node whose module id is among the
collected instance ids. -/
def moduleNodesOf (s : Scene) (ids : List String) : List Nat :=
  s.nodes.filter (fun n => midIn (s.nheap n).moduleId ids)

/-- The closing "delete modules directly (not undoable)" phase: remove the
(already deleted) module nodes, filter out every connection touching a
module node, remove the module images; the command log is untouched. -/
def directModulePhase (cv3 : Canvas) (moduleNodesList : List Nat)
    (moduleIds : List String) : Canvas :=
  let moduleImages := cv3.scene.images.filter
      (fun i => midIn (cv3.scene.iheap i).mid moduleIds)
  { cv3 with scene :=
    { cv3.scene with
      nodes := removeEach moduleNodesList cv3.scene.nodes,
      conns := cv3.scene.conns.filter (fun c =>
        !(moduleNodesList.contains (cv3.scene.cheap c).n1 ||
          moduleNodesList.contains (cv3.scene.cheap c).n2)),
      images := removeEach moduleImages cv3.scene.images } }

/-- Phases 3–5: the three undoable-deletion loops, on
`nodes_to_delete = non_module_nodes ++ module_nodes_list`, then the
still-present selected connections, then the selected non-module images. -/
def deletePhases (cv : Canvas) (selNodes selConns selImgs : List Nat) :
    Canvas :=
  selImgs.foldl delImgStep
    (selConns.foldl delConnStep
      ((selNodes.filter (fun n => !(moduleTagged cv.scene n)) ++
          moduleNodesOf cv.scene (moduleIdsOf cv.scene selNodes)).foldl
        delNodeStep cv))

/-- `DiagramCanvas.delete_selected`, faithful to the source's phases:

  1. early return when nothing is selected;
  2. split the selected nodes into module-tagged ones (whose instance ids
     are collected) and free ones;
  3. `nodes_to_delete` = free selected nodes ++ every node carrying one of
     the collected instance ids; each still-present one is deleted through
     the command log via `DeleteNodeAction` — including the module nodes;
  4. still-present selected connections via `DeleteConnectionAction`;
  5. selected non-module images via `DeleteImageAction`;
  6. finally, the "delete modules directly (not undoable)" phase: remove
     any remaining module nodes, filter out every connection touching a
     module node, and remove the module images — without touching the
     command log. -/
def deleteSelected (cv : Canvas) (selNodes selConns selImgs : List Nat) :
    Canvas :=
  if selNodes.isEmpty && selConns.isEmpty && selImgs.isEmpty then cv
  else if (moduleIdsOf cv.scene selNodes).isEmpty then
    deletePhases cv selNodes selConns selImgs
  else
    directModulePhase (deletePhases cv selNodes selConns selImgs)
      (moduleNodesOf cv.scene (moduleIdsOf cv.scene selNodes))
      (moduleIdsOf cv.scene selNodes)

/-- One locked node tagged with module instance "m", selected alone. -/
def cvC8 : Canvas :=
  ⟨{ nodes := [0], conns := [], images := [],
     nheap := fun _ => { nd0 with locked := true, moduleId := some "m" },
     cheap := fun _ => cd0, iheap := fun _ => id0 }, [], []⟩

/-- c8 counterexample: deleting a selection holding only the locked,
module-tagged node 0 pushes an undoable `DeleteNodeAction` for that module
node onto the command log — refuting "no undoable command for the
instance's elements enters the command log" (the node is removed, but
undoably; only the instance's images bypass the log). -/
theorem c8_module_node_delete_is_undoable :
    (deleteSelected cvC8 [0] [] []).undoStack = [.deleteNode 0 []] ∧
    (deleteSelected cvC8 [0] [] []).scene.nodes = [] := by
  decide

end WireDiagram


namespace WireDiagram

/-! #### Loop invariants for the three undoable-deletion loops -/

theorem executeAction_parts (cv : Canvas) (a : Action) :
    executeAction cv a =
      ⟨(execAction a cv.scene).2, (execAction a cv.scene).1 :: cv.undoStack, []⟩ :=
  rfl

theorem execAction_deleteNode_pos {s : Scene} {n : Nat} (h : n ∈ s.nodes)
    (cap : List Nat) :
    execAction (.deleteNode n cap) s =
      (.deleteNode n (s.conns.filter (fun c => s.refs c n)),
       { s with
         nodes := s.nodes.erase n,
         conns := removeEach (s.conns.filter (fun c => s.refs c n)) s.conns }) := by
  simp only [execAction]
  rw [if_pos h]

theorem removeEach_sub {t l : List Nat} {x : Nat} (h : x ∈ removeEach t l) :
    x ∈ l := by
  induction t generalizing l with
  | nil => exact h
  | cons c cs ih => exact List.mem_of_mem_erase (ih h)

theorem removeEach_nodup {t l : List Nat} (h : l.Nodup) :
    (removeEach t l).Nodup := by
  induction t generalizing l with
  | nil => exact h
  | cons c cs ih => exact ih (h.erase c)

theorem delNodeStep_spec (c : Canvas) (n : Nat) :
    (delNodeStep c n).scene.nheap = c.scene.nheap ∧
    (delNodeStep c n).scene.cheap = c.scene.cheap ∧
    (delNodeStep c n).scene.iheap = c.scene.iheap ∧
    (delNodeStep c n).scene.images = c.scene.images ∧
    (∀ x ∈ (delNodeStep c n).scene.nodes, x ∈ c.scene.nodes) ∧
    (∀ k ∈ (delNodeStep c n).scene.conns, k ∈ c.scene.conns) ∧
    (c.scene.nodes.Nodup → (delNodeStep c n).scene.nodes.Nodup) ∧
    (c.scene.conns.Nodup → (delNodeStep c n).scene.conns.Nodup) ∧
    (∀ a ∈ c.undoStack, a ∈ (delNodeStep c n).undoStack) ∧
    (∀ a ∈ (delNodeStep c n).undoStack,
      a ∈ c.undoStack ∨ ∃ m cap, a = Action.deleteNode m cap) := by
  unfold delNodeStep
  by_cases h : n ∈ c.scene.nodes
  · rw [if_pos h, executeAction_parts, execAction_deleteNode_pos h]
    refine ⟨rfl, rfl, rfl, rfl, ?_, ?_, ?_, ?_, ?_, ?_⟩
    · exact fun x hx => List.mem_of_mem_erase hx
    · exact fun k hk => removeEach_sub hk
    · exact fun hd => hd.erase n
    · exact fun hd => removeEach_nodup hd
    · exact fun a ha => List.mem_cons_of_mem _ ha
    · intro a ha
      rcases List.mem_cons.mp ha with h1 | h1
      · exact Or.inr ⟨n, _, h1⟩
      · exact Or.inl h1
  · rw [if_neg h]
    exact ⟨rfl, rfl, rfl, rfl, fun x hx => hx, fun k hk => hk, id, id,
      fun a ha => ha, fun a ha => Or.inl ha⟩

theorem foldN_spec (l : List Nat) (cv : Canvas) :
    (l.foldl delNodeStep cv).scene.nheap = cv.scene.nheap ∧
    (l.foldl delNodeStep cv).scene.cheap = cv.scene.cheap ∧
    (l.foldl delNodeStep cv).scene.iheap = cv.scene.iheap ∧
    (l.foldl delNodeStep cv).scene.images = cv.scene.images ∧
    (∀ x ∈ (l.foldl delNodeStep cv).scene.nodes, x ∈ cv.scene.nodes) ∧
    (∀ k ∈ (l.foldl delNodeStep cv).scene.conns, k ∈ cv.scene.conns) ∧
    (cv.scene.nodes.Nodup → (l.foldl delNodeStep cv).scene.nodes.Nodup) ∧
    (cv.scene.conns.Nodup → (l.foldl delNodeStep cv).scene.conns.Nodup) ∧
    (∀ a ∈ cv.undoStack, a ∈ (l.foldl delNodeStep cv).undoStack) ∧
    (∀ a ∈ (l.foldl delNodeStep cv).undoStack,
      a ∈ cv.undoStack ∨ ∃ m cap, a = Action.deleteNode m cap) := by
  induction l generalizing cv with
  | nil =>
      exact ⟨rfl, rfl, rfl, rfl, fun x hx => hx, fun k hk => hk, id, id,
        fun a ha => ha, fun a ha => Or.inl ha⟩
  | cons m rest ih =>
      obtain ⟨e1, e2, e3, e4, s5, s6, d7, d8, m9, m10⟩ := delNodeStep_spec cv m
      obtain ⟨f1, f2, f3, f4, t5, t6, g7, g8, n9, n10⟩ := ih (delNodeStep cv m)
      simp only [List.foldl_cons]
      refine ⟨f1.trans e1, f2.trans e2, f3.trans e3, f4.trans e4,
        fun x hx => s5 _ (t5 _ hx), fun k hk => s6 _ (t6 _ hk),
        fun h => g7 (d7 h), fun h => g8 (d8 h),
        fun a ha => n9 _ (m9 _ ha), fun a ha => ?_⟩
      rcases n10 a ha with h1 | h1
      · exact m10 a h1
      · exact Or.inr h1

theorem foldN_removes (l : List Nat) (cv : Canvas)
    (hnd : cv.scene.nodes.Nodup) :
    ∀ n ∈ l, n ∈ cv.scene.nodes →
      n ∉ (l.foldl delNodeStep cv).scene.nodes ∧
      ∃ cap, Action.deleteNode n cap ∈ (l.foldl delNodeStep cv).undoStack := by
  induction l generalizing cv with
  | nil => intro n hn; exact absurd hn (List.not_mem_nil n)
  | cons m rest ih =>
      intro n hn hmem
      simp only [List.foldl_cons]
      by_cases hnm : n = m
      · subst hnm
        have hstep : delNodeStep cv n = executeAction cv (.deleteNode n []) := by
          unfold delNodeStep
          rw [if_pos hmem]
        have hstep2 : delNodeStep cv n =
            { scene := { cv.scene with
                nodes := cv.scene.nodes.erase n,
                conns := removeEach
                  (cv.scene.conns.filter (fun c => cv.scene.refs c n))
                  cv.scene.conns },
              undoStack := Action.deleteNode n
                  (cv.scene.conns.filter (fun c => cv.scene.refs c n))
                :: cv.undoStack,
              redoStack := [] } := by
          rw [hstep, executeAction_parts, execAction_deleteNode_pos hmem]
        obtain ⟨_, _, _, _, t5, _, _, _, n9, _⟩ := foldN_spec rest (delNodeStep cv n)
        constructor
        · intro hfin
          have h2 := t5 _ hfin
          rw [hstep2] at h2
          exact hnd.not_mem_erase h2
        · refine ⟨cv.scene.conns.filter (fun c => cv.scene.refs c n), n9 _ ?_⟩
          rw [hstep2]
          exact List.mem_cons_self _ _
      · have hrest : n ∈ rest := by
          rcases List.mem_cons.mp hn with h1 | h1
          · exact absurd h1 hnm
          · exact h1
        have hc1 : n ∈ (delNodeStep cv m).scene.nodes := by
          unfold delNodeStep
          by_cases h : m ∈ cv.scene.nodes
          · rw [if_pos h, executeAction_parts, execAction_deleteNode_pos h]
            exact (List.mem_erase_of_ne hnm).mpr hmem
          · rw [if_neg h]
            exact hmem
        exact ih (delNodeStep cv m) ((delNodeStep_spec cv m).2.2.2.2.2.2.1 hnd)
          n hrest hc1

end WireDiagram

namespace WireDiagram

theorem contains_true_iff {α : Type} [DecidableEq α] {l : List α} {a : α} :
    l.contains a = true ↔ a ∈ l := List.elem_iff

theorem execAction_deleteConnection (k : Nat) (s : Scene) :
    execAction (.deleteConnection k) s =
      (.deleteConnection k, { s with conns := s.conns.erase k }) := rfl

theorem execAction_deleteImage (i : Nat) (s : Scene) :
    execAction (.deleteImage i) s =
      (.deleteImage i, { s with images := s.images.erase i }) := rfl

theorem delConnStep_spec (c : Canvas) (k : Nat) :
    (delConnStep c k).scene.nheap = c.scene.nheap ∧
    (delConnStep c k).scene.cheap = c.scene.cheap ∧
    (delConnStep c k).scene.iheap = c.scene.iheap ∧
    (delConnStep c k).scene.nodes = c.scene.nodes ∧
    (delConnStep c k).scene.images = c.scene.images ∧
    (∀ x ∈ (delConnStep c k).scene.conns, x ∈ c.scene.conns) ∧
    (c.scene.conns.Nodup → (delConnStep c k).scene.conns.Nodup) ∧
    (∀ a ∈ c.undoStack, a ∈ (delConnStep c k).undoStack) ∧
    (∀ a ∈ (delConnStep c k).undoStack,
      a ∈ c.undoStack ∨ ∃ m, a = Action.deleteConnection m) := by
  unfold delConnStep
  by_cases h : k ∈ c.scene.conns
  · rw [if_pos h, executeAction_parts, execAction_deleteConnection]
    refine ⟨rfl, rfl, rfl, rfl, rfl, ?_, ?_, ?_, ?_⟩
    · exact fun x hx => List.mem_of_mem_erase hx
    · exact fun hd => hd.erase k
    · exact fun a ha => List.mem_cons_of_mem _ ha
    · intro a ha
      rcases List.mem_cons.mp ha with h1 | h1
      · exact Or.inr ⟨k, h1⟩
      · exact Or.inl h1
  · rw [if_neg h]
    exact ⟨rfl, rfl, rfl, rfl, rfl, fun x hx => hx, id, fun a ha => ha,
      fun a ha => Or.inl ha⟩

theorem foldC_spec (l : List Nat) (cv : Canvas) :
    (l.foldl delConnStep cv).scene.nheap = cv.scene.nheap ∧
    (l.foldl delConnStep cv).scene.cheap = cv.scene.cheap ∧
    (l.foldl delConnStep cv).scene.iheap = cv.scene.iheap ∧
    (l.foldl delConnStep cv).scene.nodes = cv.scene.nodes ∧
    (l.foldl delConnStep cv).scene.images = cv.scene.images ∧
    (∀ x ∈ (l.foldl delConnStep cv).scene.conns, x ∈ cv.scene.conns) ∧
    (cv.scene.conns.Nodup → (l.foldl delConnStep cv).scene.conns.Nodup) ∧
    (∀ a ∈ cv.undoStack, a ∈ (l.foldl delConnStep cv).undoStack) ∧
    (∀ a ∈ (l.foldl delConnStep cv).undoStack,
      a ∈ cv.undoStack ∨ ∃ m, a = Action.deleteConnection m) := by
  induction l generalizing cv with
  | nil =>
      exact ⟨rfl, rfl, rfl, rfl, rfl, fun x hx => hx, id, fun a ha => ha,
        fun a ha => Or.inl ha⟩
  | cons m rest ih =>
      obtain ⟨e1, e2, e3, e4, e5, s6, d7, m8, m9⟩ := delConnStep_spec cv m
      obtain ⟨f1, f2, f3, f4, f5, t6, g7, n8, n9⟩ := ih (delConnStep cv m)
      simp only [List.foldl_cons]
      refine ⟨f1.trans e1, f2.trans e2, f3.trans e3, f4.trans e4, f5.trans e5,
        fun x hx => s6 _ (t6 _ hx), fun h => g7 (d7 h),
        fun a ha => n8 _ (m8 _ ha), fun a ha => ?_⟩
      rcases n9 a ha with h1 | h1
      · exact m9 a h1
      · exact Or.inr h1

theorem foldC_removes (l : List Nat) (cv : Canvas)
    (hnd : cv.scene.conns.Nodup) :
    ∀ k ∈ l, k ∉ (l.foldl delConnStep cv).scene.conns := by
  induction l generalizing cv with
  | nil => intro k hk; exact absurd hk (List.not_mem_nil k)
  | cons m rest ih =>
      intro k hk
      simp only [List.foldl_cons]
      by_cases hkm : k = m
      · subst hkm
        have hk1 : k ∉ (delConnStep cv k).scene.conns := by
          unfold delConnStep
          by_cases h : k ∈ cv.scene.conns
          · rw [if_pos h, executeAction_parts, execAction_deleteConnection]
            exact hnd.not_mem_erase
          · rw [if_neg h]
            exact h
        intro hfin
        exact hk1 ((foldC_spec rest (delConnStep cv k)).2.2.2.2.2.1 _ hfin)
      · have hrest : k ∈ rest := by
          rcases List.mem_cons.mp hk with h1 | h1
          · exact absurd h1 hkm
          · exact h1
        exact ih (delConnStep cv m) ((delConnStep_spec cv m).2.2.2.2.2.2.1 hnd)
          k hrest

theorem imgTagged_congr {s t : Scene} (h : s.iheap = t.iheap) (i : Nat) :
    imgTagged s i = imgTagged t i := by
  unfold imgTagged
  rw [h]

theorem delImgStep_spec (c : Canvas) (i : Nat) :
    (delImgStep c i).scene.nheap = c.scene.nheap ∧
    (delImgStep c i).scene.cheap = c.scene.cheap ∧
    (delImgStep c i).scene.iheap = c.scene.iheap ∧
    (delImgStep c i).scene.nodes = c.scene.nodes ∧
    (delImgStep c i).scene.conns = c.scene.conns ∧
    (∀ x ∈ (delImgStep c i).scene.images, x ∈ c.scene.images) ∧
    (c.scene.images.Nodup → (delImgStep c i).scene.images.Nodup) ∧
    (∀ a ∈ c.undoStack, a ∈ (delImgStep c i).undoStack) ∧
    (∀ a ∈ (delImgStep c i).undoStack,
      a ∈ c.undoStack ∨
        ∃ m, a = Action.deleteImage m ∧ imgTagged c.scene m = false) := by
  unfold delImgStep
  by_cases h : i ∈ c.scene.images ∧ imgTagged c.scene i = false
  · rw [if_pos h, executeAction_parts, execAction_deleteImage]
    refine ⟨rfl, rfl, rfl, rfl, rfl, ?_, ?_, ?_, ?_⟩
    · exact fun x hx => List.mem_of_mem_erase hx
    · exact fun hd => hd.erase i
    · exact fun a ha => List.mem_cons_of_mem _ ha
    · intro a ha
      rcases List.mem_cons.mp ha with h1 | h1
      · exact Or.inr ⟨i, h1, h.2⟩
      · exact Or.inl h1
  · rw [if_neg h]
    exact ⟨rfl, rfl, rfl, rfl, rfl, fun x hx => hx, id, fun a ha => ha,
      fun a ha => Or.inl ha⟩

theorem foldI_spec (l : List Nat) (cv : Canvas) :
    (l.foldl delImgStep cv).scene.nheap = cv.scene.nheap ∧
    (l.foldl delImgStep cv).scene.cheap = cv.scene.cheap ∧
    (l.foldl delImgStep cv).scene.iheap = cv.scene.iheap ∧
    (l.foldl delImgStep cv).scene.nodes = cv.scene.nodes ∧
    (l.foldl delImgStep cv).scene.conns = cv.scene.conns ∧
    (∀ x ∈ (l.foldl delImgStep cv).scene.images, x ∈ cv.scene.images) ∧
    (cv.scene.images.Nodup → (l.foldl delImgStep cv).scene.images.Nodup) ∧
    (∀ a ∈ cv.undoStack, a ∈ (l.foldl delImgStep cv).undoStack) ∧
    (∀ a ∈ (l.foldl delImgStep cv).undoStack,
      a ∈ cv.undoStack ∨
        ∃ m, a = Action.deleteImage m ∧ imgTagged cv.scene m = false) := by
  induction l generalizing cv with
  | nil =>
      exact ⟨rfl, rfl, rfl, rfl, rfl, fun x hx => hx, id, fun a ha => ha,
        fun a ha => Or.inl ha⟩
  | cons m rest ih =>
      obtain ⟨e1, e2, e3, e4, e5, s6, d7, m8, m9⟩ := delImgStep_spec cv m
      obtain ⟨f1, f2, f3, f4, f5, t6, g7, n8, n9⟩ := ih (delImgStep cv m)
      simp only [List.foldl_cons]
      refine ⟨f1.trans e1, f2.trans e2, f3.trans e3, f4.trans e4, f5.trans e5,
        fun x hx => s6 _ (t6 _ hx), fun h => g7 (d7 h),
        fun a ha => n8 _ (m8 _ ha), fun a ha => ?_⟩
      rcases n9 a ha with h1 | h1
      · exact m9 a h1
      · obtain ⟨x, hx1, hx2⟩ := h1
        exact Or.inr ⟨x, hx1, (imgTagged_congr e3 x) ▸ hx2⟩

theorem foldI_tagged_survive (l : List Nat) (cv : Canvas) :
    ∀ i, imgTagged cv.scene i = true → i ∈ cv.scene.images →
      i ∈ (l.foldl delImgStep cv).scene.images := by
  induction l generalizing cv with
  | nil => exact fun i _ h => h
  | cons m rest ih =>
      intro i htag hmem
      simp only [List.foldl_cons]
      have hstep : i ∈ (delImgStep cv m).scene.images := by
        unfold delImgStep
        by_cases h : m ∈ cv.scene.images ∧ imgTagged cv.scene m = false
        · rw [if_pos h, executeAction_parts, execAction_deleteImage]
          have hne : i ≠ m := by
            intro he
            rw [← he] at h
            rw [htag] at h
            exact Bool.noConfusion h.2
          exact (List.mem_erase_of_ne hne).mpr hmem
        · rw [if_neg h]
          exact hmem
      exact ih (delImgStep cv m) i
        ((imgTagged_congr (delImgStep_spec cv m).2.2.1 i) ▸ htag) hstep

theorem foldI_removes (l : List Nat) (cv : Canvas)
    (hnd : cv.scene.images.Nodup) :
    ∀ i ∈ l, imgTagged cv.scene i = false → i ∈ cv.scene.images →
      i ∉ (l.foldl delImgStep cv).scene.images ∧
      Action.deleteImage i ∈ (l.foldl delImgStep cv).undoStack := by
  induction l generalizing cv with
  | nil => intro i hi; exact absurd hi (List.not_mem_nil i)
  | cons m rest ih =>
      intro i hi htag hmem
      simp only [List.foldl_cons]
      by_cases him : i = m
      · subst him
        have hcond : i ∈ cv.scene.images ∧ imgTagged cv.scene i = false :=
          ⟨hmem, htag⟩
        have hstep : delImgStep cv i =
            ⟨{ cv.scene with images := cv.scene.images.erase i },
             Action.deleteImage i :: cv.undoStack, []⟩ := by
          unfold delImgStep
          rw [if_pos hcond, executeAction_parts, execAction_deleteImage]
        obtain ⟨_, _, _, _, _, t6, _, n8, _⟩ := foldI_spec rest (delImgStep cv i)
        constructor
        · intro hfin
          have h2 := t6 _ hfin
          rw [hstep] at h2
          exact hnd.not_mem_erase h2
        · refine n8 _ ?_
          rw [hstep]
          exact List.mem_cons_self _ _
      · have hrest : i ∈ rest := by
          rcases List.mem_cons.mp hi with h1 | h1
          · exact absurd h1 him
          · exact h1
        have hstep : i ∈ (delImgStep cv m).scene.images := by
          unfold delImgStep
          by_cases h : m ∈ cv.scene.images ∧ imgTagged cv.scene m = false
          · rw [if_pos h, executeAction_parts, execAction_deleteImage]
            exact (List.mem_erase_of_ne him).mpr hmem
          · rw [if_neg h]
            exact hmem
        exact ih (delImgStep cv m) ((delImgStep_spec cv m).2.2.2.2.2.2.1 hnd) i
          hrest ((imgTagged_congr (delImgStep_spec cv m).2.2.1 i) ▸ htag) hstep

theorem directModulePhase_parts (cv3 : Canvas) (mnl : List Nat)
    (ids : List String) :
    (directModulePhase cv3 mnl ids).undoStack = cv3.undoStack ∧
    (directModulePhase cv3 mnl ids).scene.nodes =
      removeEach mnl cv3.scene.nodes ∧
    (directModulePhase cv3 mnl ids).scene.conns =
      cv3.scene.conns.filter (fun c =>
        !(mnl.contains (cv3.scene.cheap c).n1 ||
          mnl.contains (cv3.scene.cheap c).n2)) ∧
    (directModulePhase cv3 mnl ids).scene.images =
      removeEach
        (cv3.scene.images.filter (fun i => midIn (cv3.scene.iheap i).mid ids))
        cv3.scene.images ∧
    (directModulePhase cv3 mnl ids).scene.cheap = cv3.scene.cheap ∧
    (directModulePhase cv3 mnl ids).scene.iheap = cv3.scene.iheap ∧
    (directModulePhase cv3 mnl ids).scene.nheap = cv3.scene.nheap :=
  ⟨rfl, rfl, rfl, rfl, rfl, rfl, rfl⟩

end WireDiagram

namespace WireDiagram

/-- c8 (amended): when `delete_selected` runs on a selection containing a
locked, module-tagged node (instance id `M`), the entire module instance is
removed from the scene — every node carrying `M`, every connection touching
such a node, every image carrying `M` — but the instance's NODES are removed
through individual undoable `DeleteNodeAction` commands that do enter the
command log; only the instance's images (and the final connection sweep)
bypass the log.  Non-module selected nodes are likewise removed via
individual undoable `DeleteNodeAction`s, selected connections end up
removed, and selected non-module images are removed via undoable
`DeleteImageAction`s. -/
theorem c8_amended_module_instance_removal
    (cv : Canvas) (selNodes selConns selImgs : List Nat) (M : String)
    (n0 : Nat)
    (hndN : cv.scene.nodes.Nodup) (hndC : cv.scene.conns.Nodup)
    (hndI : cv.scene.images.Nodup)
    (hn0sel : n0 ∈ selNodes) (hn0tag : moduleTagged cv.scene n0 = true)
    (hn0mid : (cv.scene.nheap n0).moduleId = some M) :
    (∀ n ∈ cv.scene.nodes, (cv.scene.nheap n).moduleId = some M →
      n ∉ (deleteSelected cv selNodes selConns selImgs).scene.nodes ∧
      ∃ cap, Action.deleteNode n cap ∈
        (deleteSelected cv selNodes selConns selImgs).undoStack) ∧
    (∀ c ∈ (deleteSelected cv selNodes selConns selImgs).scene.conns,
      ∀ x ∈ cv.scene.nodes, (cv.scene.nheap x).moduleId = some M →
        (cv.scene.cheap c).n1 ≠ x ∧ (cv.scene.cheap c).n2 ≠ x) ∧
    (∀ i ∈ cv.scene.images, (cv.scene.iheap i).mid = some M →
      i ∉ (deleteSelected cv selNodes selConns selImgs).scene.images) ∧
    (∀ i, (cv.scene.iheap i).mid = some M →
      Action.deleteImage i ∉ cv.undoStack →
      Action.deleteImage i ∉
        (deleteSelected cv selNodes selConns selImgs).undoStack) ∧
    (∀ n ∈ selNodes, moduleTagged cv.scene n = false → n ∈ cv.scene.nodes →
      n ∉ (deleteSelected cv selNodes selConns selImgs).scene.nodes ∧
      ∃ cap, Action.deleteNode n cap ∈
        (deleteSelected cv selNodes selConns selImgs).undoStack) ∧
    (∀ k ∈ selConns,
      k ∉ (deleteSelected cv selNodes selConns selImgs).scene.conns) ∧
    (∀ i ∈ selImgs, imgTagged cv.scene i = false → i ∈ cv.scene.images →
      i ∉ (deleteSelected cv selNodes selConns selImgs).scene.images ∧
      Action.deleteImage i ∈
        (deleteSelected cv selNodes selConns selImgs).undoStack) := by
  have hMne : (!(M == "")) = true := by
    unfold moduleTagged at hn0tag
    rw [hn0mid] at hn0tag
    simp only [Bool.and_eq_true] at hn0tag
    exact hn0tag.2
  have himgTag : ∀ i, (cv.scene.iheap i).mid = some M →
      imgTagged cv.scene i = true := by
    intro i h
    unfold imgTagged
    rw [h]
    exact hMne
  set ids := moduleIdsOf cv.scene selNodes with hids
  set mnl := moduleNodesOf cv.scene ids with hmnl
  set cv1 := (selNodes.filter (fun n => !(moduleTagged cv.scene n)) ++
      mnl).foldl delNodeStep cv with hcv1
  set cv2 := selConns.foldl delConnStep cv1 with hcv2
  set cv3 := selImgs.foldl delImgStep cv2 with hcv3
  have hM : M ∈ ids := by
    rw [hids]
    unfold moduleIdsOf
    exact List.mem_filterMap.mpr
      ⟨n0, List.mem_filter.mpr ⟨hn0sel, hn0tag⟩, hn0mid⟩
  have hds : deleteSelected cv selNodes selConns selImgs
      = directModulePhase cv3 mnl ids := by
    have h1 : (selNodes.isEmpty && selConns.isEmpty && selImgs.isEmpty)
        = false := by
      cases selNodes with
      | nil => exact absurd hn0sel (List.not_mem_nil n0)
      | cons a l => rfl
    have h2 : ids.isEmpty = false := by
      cases hI : ids with
      | nil =>
          rw [hI] at hM
          exact absurd hM (List.not_mem_nil M)
      | cons a l => rfl
    unfold deleteSelected
    rw [if_neg (by simp [h1]), if_neg (by rw [← hids]; simp [h2])]
    rfl
  obtain ⟨N1, N2, N3, N4, N5, N6, N7, N8, N9, N10⟩ :=
    foldN_spec (selNodes.filter (fun n => !(moduleTagged cv.scene n)) ++ mnl) cv
  obtain ⟨X1, X2, X3, X4, X5, X6, X7, X8, X9⟩ := foldC_spec selConns cv1
  obtain ⟨I1, I2, I3, I4, I5, I6, I7, I8, I9⟩ := foldI_spec selImgs cv2
  obtain ⟨D1, D2, D3, D4, D5, D6, D7⟩ := directModulePhase_parts cv3 mnl ids
  have hMmnl : ∀ x ∈ cv.scene.nodes,
      (cv.scene.nheap x).moduleId = some M → x ∈ mnl := by
    intro x hx hxm
    rw [hmnl]
    unfold moduleNodesOf
    refine List.mem_filter.mpr ⟨hx, ?_⟩
    unfold midIn
    rw [hxm]
    exact contains_true_iff.mpr hM
  have hnheap2 : cv2.scene.iheap = cv.scene.iheap := X3.trans N3
  have hcheap3 : cv3.scene.cheap = cv.scene.cheap := I2.trans (X2.trans N2)
  have hiheap3 : cv3.scene.iheap = cv.scene.iheap := I3.trans hnheap2
  have hnodes32 : cv3.scene.nodes = cv1.scene.nodes := I4.trans X4
  have himages2 : cv2.scene.images = cv.scene.images := X5.trans N4
  rw [hds]
  refine ⟨?_, ?_, ?_, ?_, ?_, ?_, ?_⟩
  · intro n hn hmid
    obtain ⟨hnot, cap, hstk⟩ :=
      foldN_removes _ cv hndN n (List.mem_append_right _ (hMmnl n hn hmid)) hn
    refine ⟨?_, cap, ?_⟩
    · intro hfin
      rw [D2] at hfin
      have h3 := removeEach_sub hfin
      rw [hnodes32] at h3
      exact hnot h3
    · rw [D1]
      exact I8 _ (X8 _ hstk)
  · intro c hc x hx hxmid
    rw [D3] at hc
    have hpred := (List.mem_filter.mp hc).2
    rw [Bool.not_eq_true', Bool.or_eq_false_iff] at hpred
    have hxm : x ∈ mnl := hMmnl x hx hxmid
    have hxc := contains_true_iff.mpr hxm
    constructor
    · intro heq
      have h1 := hpred.1
      rw [hcheap3, heq] at h1
      rw [h1] at hxc
      exact Bool.noConfusion hxc
    · intro heq
      have h1 := hpred.2
      rw [hcheap3, heq] at h1
      rw [h1] at hxc
      exact Bool.noConfusion hxc
  · intro i hi himid
    have htag2 : imgTagged cv2.scene i = true := by
      rw [imgTagged_congr hnheap2 i]
      exact himgTag i himid
    have hmem3 : i ∈ cv3.scene.images :=
      foldI_tagged_survive selImgs cv2 i htag2 (by rw [himages2]; exact hi)
    intro hfin
    rw [D4, removeEach_filter] at hfin
    have h4 := (List.mem_filter.mp hfin).2
    rw [Bool.not_eq_true'] at h4
    have h5 : midIn (cv3.scene.iheap i).mid ids = true := by
      rw [hiheap3]
      unfold midIn
      rw [himid]
      exact contains_true_iff.mpr hM
    rw [h5] at h4
    exact Bool.noConfusion h4
  · intro i himid hnotold hfin
    rw [D1] at hfin
    rcases I9 _ hfin with h1 | ⟨m, hm1, hm2⟩
    · rcases X9 _ h1 with h2 | ⟨k, hk⟩
      · rcases N10 _ h2 with h3 | ⟨mm, cap, hmm⟩
        · exact hnotold h3
        · exact Action.noConfusion hmm
      · exact Action.noConfusion hk
    · have hmi : i = m := Action.deleteImage.inj hm1
      rw [← hmi] at hm2
      rw [imgTagged_congr hnheap2 i] at hm2
      rw [himgTag i himid] at hm2
      exact Bool.noConfusion hm2
  · intro n hnsel hfree hnmem
    have hmemf : n ∈ selNodes.filter (fun n => !(moduleTagged cv.scene n)) :=
      List.mem_filter.mpr ⟨hnsel, by rw [hfree]; rfl⟩
    obtain ⟨hnot, cap, hstk⟩ :=
      foldN_removes _ cv hndN n (List.mem_append_left _ hmemf) hnmem
    refine ⟨?_, cap, ?_⟩
    · intro hfin
      rw [D2] at hfin
      have h3 := removeEach_sub hfin
      rw [hnodes32] at h3
      exact hnot h3
    · rw [D1]
      exact I8 _ (X8 _ hstk)
  · intro k hk
    have h2 := foldC_removes selConns cv1 (N8 hndC) k hk
    intro hfin
    rw [D3] at hfin
    have h3 := (List.mem_filter.mp hfin).1
    rw [I5] at h3
    exact h2 h3
  · intro i hisel htagf himem
    have htag2 : imgTagged cv2.scene i = false := by
      rw [imgTagged_congr hnheap2 i]
      exact htagf
    have hnd2 : cv2.scene.images.Nodup := by
      rw [himages2]
      exact hndI
    obtain ⟨hnot3, hstk3⟩ := foldI_removes selImgs cv2 hnd2 i hisel htag2
      (by rw [himages2]; exact himem)
    constructor
    · intro hfin
      rw [D4] at hfin
      exact hnot3 (removeEach_sub hfin)
    · rw [D1]
      exact hstk3

end WireDiagram

namespace WireDiagram

/-- Module instance "m": locked node 0 and image 2; free node 1 connected to
node 0; free image 3.  Selection: both nodes and image 3. -/
def cvC8w : Canvas :=
  ⟨{ nodes := [0, 1], conns := [10], images := [2, 3],
     nheap := fun n =>
       if n = 0 then { nd0 with locked := true, moduleId := some "m" }
       else nd0,
     cheap := fun _ => { cd0 with n1 := 0, n2 := 1 },
     iheap := fun i =>
       if i = 2 then { id0 with mid := some "m" } else id0 }, [], []⟩

theorem c8_amended_module_instance_removal_witness :
    cvC8w.scene.nodes.Nodup ∧ cvC8w.scene.conns.Nodup ∧
    cvC8w.scene.images.Nodup ∧ 0 ∈ ([0, 1] : List Nat) ∧
    moduleTagged cvC8w.scene 0 = true ∧
    (cvC8w.scene.nheap 0).moduleId = some "m" ∧
    ((∀ n ∈ cvC8w.scene.nodes, (cvC8w.scene.nheap n).moduleId = some "m" →
      n ∉ (deleteSelected cvC8w [0, 1] [] [3]).scene.nodes ∧
      ∃ cap, Action.deleteNode n cap ∈
        (deleteSelected cvC8w [0, 1] [] [3]).undoStack) ∧
    (∀ c ∈ (deleteSelected cvC8w [0, 1] [] [3]).scene.conns,
      ∀ x ∈ cvC8w.scene.nodes, (cvC8w.scene.nheap x).moduleId = some "m" →
        (cvC8w.scene.cheap c).n1 ≠ x ∧ (cvC8w.scene.cheap c).n2 ≠ x) ∧
    (∀ i ∈ cvC8w.scene.images, (cvC8w.scene.iheap i).mid = some "m" →
      i ∉ (deleteSelected cvC8w [0, 1] [] [3]).scene.images) ∧
    (∀ i, (cvC8w.scene.iheap i).mid = some "m" →
      Action.deleteImage i ∉ cvC8w.undoStack →
      Action.deleteImage i ∉ (deleteSelected cvC8w [0, 1] [] [3]).undoStack) ∧
    (∀ n ∈ ([0, 1] : List Nat), moduleTagged cvC8w.scene n = false →
      n ∈ cvC8w.scene.nodes →
      n ∉ (deleteSelected cvC8w [0, 1] [] [3]).scene.nodes ∧
      ∃ cap, Action.deleteNode n cap ∈
        (deleteSelected cvC8w [0, 1] [] [3]).undoStack) ∧
    (∀ k ∈ ([] : List Nat),
      k ∉ (deleteSelected cvC8w [0, 1] [] [3]).scene.conns) ∧
    (∀ i ∈ ([3] : List Nat), imgTagged cvC8w.scene i = false →
      i ∈ cvC8w.scene.images →
      i ∉ (deleteSelected cvC8w [0, 1] [] [3]).scene.images ∧
      Action.deleteImage i ∈ (deleteSelected cvC8w [0, 1] [] [3]).undoStack)) :=
  ⟨by decide, by decide, by decide, by decide, by decide, by decide,
    c8_amended_module_instance_removal cvC8w [0, 1] [] [3] "m" 0 (by decide)
      (by decide) (by decide) (by decide) (by decide) (by decide)⟩

end WireDiagram

namespace WireDiagram

/-! ### C1 — the undo/redo inverse law

Scene equality for the purposes of the law: the same set of node,
connection and image objects (the canvas lists as multisets — the order of
the Python lists is an implementation detail of list identity, not a scene
attribute; the spec's data model (§3) describes the scene as entities with
attributes) and identical attribute heaps, i.e. every object has exactly the
same attributes. -/
def SceneEq (s t : Scene) : Prop :=
  s.nodes.Perm t.nodes ∧ s.conns.Perm t.conns ∧ s.images.Perm t.images ∧
  s.nheap = t.nheap ∧ s.cheap = t.cheap ∧ s.iheap = t.iheap

theorem SceneEq.refl (s : Scene) : SceneEq s s :=
  ⟨List.Perm.refl _, List.Perm.refl _, List.Perm.refl _, rfl, rfl, rfl⟩

theorem SceneEq.trans {s t u : Scene} (h1 : SceneEq s t) (h2 : SceneEq t u) :
    SceneEq s u :=
  ⟨h1.1.trans h2.1, h1.2.1.trans h2.2.1, h1.2.2.1.trans h2.2.2.1,
   h1.2.2.2.1.trans h2.2.2.2.1, h1.2.2.2.2.1.trans h2.2.2.2.2.1,
   h1.2.2.2.2.2.trans h2.2.2.2.2.2⟩

theorem sceneEq_of_eq {s t : Scene} (h : s = t) : SceneEq s t := h ▸ SceneEq.refl s

/-- The per-command construction-site precondition: each command's stored
"before" state matches the scene it executes in (the canvas constructs every
command from the live scene immediately before running it — §4.1: "commands
are constructed only after validating preconditions"), and objects being
added are fresh object identities. -/
def wfAt (a : Action) (s : Scene) : Bool :=
  match a with
  | .addNode n =>
      decide (n ∉ s.nodes) && decide (∀ c ∈ s.conns, s.refs c n = false)
  | .deleteNode n _ => decide (n ∈ s.nodes)
  | .addConnection c => decide (c ∉ s.conns)
  | .deleteConnection c => decide (c ∈ s.conns)
  | .moveNode n old _ => decide ((s.nheap n).pos = old)
  | .changeNodeColor n old _ => decide ((s.nheap n).color = old)
  | .changeNodeClass n oldC _ oldCol _ =>
      decide ((s.nheap n).nclass = oldC) && decide ((s.nheap n).color = oldCol)
  | .changeConnectionColor c old _ => decide ((s.cheap c).color = old)
  | .addImage i => decide (i ∉ s.images)
  | .deleteImage i => decide (i ∈ s.images)
  | .moveImage i old _ => decide ((s.iheap i).pos = old)
  | .resizeImage i ow oh _ _ =>
      decide ((s.iheap i).width = ow) && decide ((s.iheap i).height = oh)
  | .createModule ns imgs _ ol om oim =>
      decide ns.Nodup && decide imgs.Nodup &&
      decide (∀ n ∈ ns, alookup ol n = some (s.nheap n).locked) &&
      decide (∀ n ∈ ns, alookup om n = some (s.nheap n).moduleId) &&
      decide (∀ i ∈ imgs, alookup oim i = some (s.iheap i).mid)
  | .moveModule oldN newN oldI newI oldW newW =>
      decide (oldN.map Prod.fst).Nodup && decide (oldI.map Prod.fst).Nodup &&
      decide (oldW.map Prod.fst).Nodup &&
      decide (∀ p ∈ newN, p.1 ∈ oldN.map Prod.fst) &&
      decide (∀ p ∈ newI, p.1 ∈ oldI.map Prod.fst) &&
      decide (∀ p ∈ newW, p.1 ∈ oldW.map Prod.fst) &&
      decide (∀ p ∈ oldN, (s.nheap p.1).pos = p.2) &&
      decide (∀ p ∈ oldI, (s.iheap p.1).pos = p.2) &&
      decide (∀ p ∈ oldW, (s.cheap p.1).waypoints = p.2)
  | .duplicateModule ns imgs cs =>
      decide ns.Nodup && decide imgs.Nodup && decide cs.Nodup &&
      decide (∀ x ∈ ns, x ∉ s.nodes) &&
      decide (∀ x ∈ imgs, x ∉ s.images) &&
      decide (∀ x ∈ cs, x ∉ s.conns)
  | .addWaypoint _ _ _ => true
  | .removeWaypoint c wp idx => decide ((s.cheap c).waypoints[idx]? = some wp)

/-- The canvas's list invariant: each Python list holds each object at most
once (maintained by the `if x not in list` guards of the source). -/
def invB (s : Scene) : Bool :=
  decide s.nodes.Nodup && decide s.conns.Nodup && decide s.images.Nodup

/-- A command chain is well-formed when each command is well-formed in the
scene in which it executes. -/
def wfChain : Scene → List Action → Bool
  | _, [] => true
  | s, a :: rest => wfAt a s && wfChain (execAction a s).2 rest

/-! #### Association-list (`dict`) lemmas -/

theorem alookup_cons {α : Type} (a : Nat) (b : α) (rest : List (Nat × α))
    (k : Nat) :
    alookup ((a, b) :: rest) k =
      if a = k then some b else alookup rest k := by
  unfold alookup
  by_cases h : a = k
  · rw [List.find?_cons_of_pos _ (by simpa using h), if_pos h]
    rfl
  · rw [List.find?_cons_of_neg _ (by simpa using h), if_neg h]

theorem alookup_eq_none {α : Type} {l : List (Nat × α)} {k : Nat}
    (h : k ∉ l.map Prod.fst) : alookup l k = none := by
  induction l with
  | nil => rfl
  | cons p rest ih =>
      obtain ⟨a, b⟩ := p
      rw [alookup_cons]
      rw [List.map_cons, List.mem_cons] at h
      push_neg at h
      rw [if_neg (fun hh => h.1 hh.symm)]
      exact ih h.2

theorem mem_keys_of_alookup {α : Type} {l : List (Nat × α)} {k : Nat} {v : α}
    (h : alookup l k = some v) : k ∈ l.map Prod.fst := by
  by_contra hk
  rw [alookup_eq_none hk] at h
  exact Option.noConfusion h

/-! #### Bridging the scene-valued folds to list/heap-valued folds -/

theorem foldl_keyed_update {β δ : Type} (g : Nat → β → δ → δ) :
    ∀ (l : List (Nat × β)), (l.map Prod.fst).Nodup → ∀ (h : Nat → δ) (k : Nat),
    (l.foldl (fun hh p => fun j => if j = p.1 then g p.1 p.2 (hh p.1) else hh j) h) k
      = match alookup l k with
        | some v => g k v (h k)
        | none => h k := by
  intro l
  induction l with
  | nil => intro _ h k; rfl
  | cons p rest ih =>
      obtain ⟨a, b⟩ := p
      intro hnd h k
      rw [List.map_cons] at hnd
      have hanotin : a ∉ rest.map Prod.fst := (List.nodup_cons.mp hnd).1
      have hrest : (rest.map Prod.fst).Nodup := (List.nodup_cons.mp hnd).2
      simp only [List.foldl_cons]
      rw [ih hrest]
      rw [alookup_cons]
      by_cases hka : a = k
      · subst hka
        rw [if_pos rfl, alookup_eq_none hanotin]
        simp
      · rw [if_neg hka]
        have hne : k ≠ a := fun hh => hka hh.symm
        cases halk : alookup rest k with
        | none => simp [hne]
        | some v => simp [hne]

theorem foldl_keyed_update_plain {δ : Type} (g : Nat → δ → δ) :
    ∀ (l : List Nat), l.Nodup → ∀ (h : Nat → δ) (k : Nat),
    (l.foldl (fun hh n => fun j => if j = n then g n (hh n) else hh j) h) k
      = if k ∈ l then g k (h k) else h k := by
  intro l
  induction l with
  | nil => intro _ h k; simp
  | cons a rest ih =>
      intro hnd h k
      have hanotin : a ∉ rest := (List.nodup_cons.mp hnd).1
      have hrest : rest.Nodup := (List.nodup_cons.mp hnd).2
      simp only [List.foldl_cons]
      rw [ih hrest]
      by_cases hka : k = a
      · subst hka
        simp [hanotin]
      · by_cases hkr : k ∈ rest <;> simp [hka, hkr]

end WireDiagram

namespace WireDiagram

theorem scene_foldl_setNode_assoc {β : Type} (g : Nat → β → NodeData → NodeData)
    (l : List (Nat × β)) (s : Scene) :
    l.foldl (fun sc p => sc.setNode p.1 (g p.1 p.2 (sc.nheap p.1))) s
      = { s with
          nheap := l.foldl
            (fun hh p => fun j => if j = p.1 then g p.1 p.2 (hh p.1) else hh j)
            s.nheap } := by
  induction l generalizing s with
  | nil => rfl
  | cons p rest ih =>
      simp only [List.foldl_cons]
      rw [ih]
      rfl

theorem scene_foldl_setImage_assoc {β : Type} (g : Nat → β → ImgData → ImgData)
    (l : List (Nat × β)) (s : Scene) :
    l.foldl (fun sc p => sc.setImage p.1 (g p.1 p.2 (sc.iheap p.1))) s
      = { s with
          iheap := l.foldl
            (fun hh p => fun j => if j = p.1 then g p.1 p.2 (hh p.1) else hh j)
            s.iheap } := by
  induction l generalizing s with
  | nil => rfl
  | cons p rest ih =>
      simp only [List.foldl_cons]
      rw [ih]
      rfl

theorem scene_foldl_setConn_assoc {β : Type} (g : Nat → β → ConnData → ConnData)
    (l : List (Nat × β)) (s : Scene) :
    l.foldl (fun sc p => sc.setConn p.1 (g p.1 p.2 (sc.cheap p.1))) s
      = { s with
          cheap := l.foldl
            (fun hh p => fun j => if j = p.1 then g p.1 p.2 (hh p.1) else hh j)
            s.cheap } := by
  induction l generalizing s with
  | nil => rfl
  | cons p rest ih =>
      simp only [List.foldl_cons]
      rw [ih]
      rfl

theorem scene_foldl_setNode_plain (g : Nat → NodeData → NodeData)
    (l : List Nat) (s : Scene) :
    l.foldl (fun sc n => sc.setNode n (g n (sc.nheap n))) s
      = { s with
          nheap := l.foldl
            (fun hh n => fun j => if j = n then g n (hh n) else hh j) s.nheap } := by
  induction l generalizing s with
  | nil => rfl
  | cons n rest ih =>
      simp only [List.foldl_cons]
      rw [ih]
      rfl

theorem scene_foldl_setImage_plain (g : Nat → ImgData → ImgData)
    (l : List Nat) (s : Scene) :
    l.foldl (fun sc i => sc.setImage i (g i (sc.iheap i))) s
      = { s with
          iheap := l.foldl
            (fun hh i => fun j => if j = i then g i (hh i) else hh j) s.iheap } := by
  induction l generalizing s with
  | nil => rfl
  | cons i rest ih =>
      simp only [List.foldl_cons]
      rw [ih]
      rfl

theorem scene_foldl_nodes_append (l : List Nat) (s : Scene) :
    l.foldl (fun sc n => if n ∈ sc.nodes then sc
        else { sc with nodes := sc.nodes ++ [n] }) s
      = { s with
          nodes := l.foldl
            (fun acc n => if n ∈ acc then acc else acc ++ [n]) s.nodes } := by
  induction l generalizing s with
  | nil => rfl
  | cons n rest ih =>
      simp only [List.foldl_cons]
      by_cases h : n ∈ s.nodes
      · rw [if_pos h, if_pos h, ih]
      · rw [if_neg h, if_neg h, ih]

theorem scene_foldl_conns_append (l : List Nat) (s : Scene) :
    l.foldl (fun sc c => if c ∈ sc.conns then sc
        else { sc with conns := sc.conns ++ [c] }) s
      = { s with
          conns := l.foldl
            (fun acc c => if c ∈ acc then acc else acc ++ [c]) s.conns } := by
  induction l generalizing s with
  | nil => rfl
  | cons c rest ih =>
      simp only [List.foldl_cons]
      by_cases h : c ∈ s.conns
      · rw [if_pos h, if_pos h, ih]
      · rw [if_neg h, if_neg h, ih]

theorem scene_foldl_images_append (l : List Nat) (s : Scene) :
    l.foldl (fun sc i => if i ∈ sc.images then sc
        else { sc with images := sc.images ++ [i] }) s
      = { s with
          images := l.foldl
            (fun acc i => if i ∈ acc then acc else acc ++ [i]) s.images } := by
  induction l generalizing s with
  | nil => rfl
  | cons i rest ih =>
      simp only [List.foldl_cons]
      by_cases h : i ∈ s.images
      · rw [if_pos h, if_pos h, ih]
      · rw [if_neg h, if_neg h, ih]

theorem scene_foldl_nodes_erase (l : List Nat) (s : Scene) :
    l.foldl (fun sc n => { sc with nodes := sc.nodes.erase n }) s
      = { s with nodes := removeEach l s.nodes } := by
  induction l generalizing s with
  | nil => rfl
  | cons n rest ih =>
      simp only [List.foldl_cons]
      rw [ih]
      rfl

theorem scene_foldl_conns_erase (l : List Nat) (s : Scene) :
    l.foldl (fun sc c => { sc with conns := sc.conns.erase c }) s
      = { s with conns := removeEach l s.conns } := by
  induction l generalizing s with
  | nil => rfl
  | cons c rest ih =>
      simp only [List.foldl_cons]
      rw [ih]
      rfl

theorem scene_foldl_images_erase (l : List Nat) (s : Scene) :
    l.foldl (fun sc i => { sc with images := sc.images.erase i }) s
      = { s with images := removeEach l s.images } := by
  induction l generalizing s with
  | nil => rfl
  | cons i rest ih =>
      simp only [List.foldl_cons]
      rw [ih]
      rfl

theorem foldl_append_fresh (l : List Nat) : ∀ (start : List Nat), l.Nodup →
    (∀ x ∈ l, x ∉ start) →
    l.foldl (fun acc x => if x ∈ acc then acc else acc ++ [x]) start
      = start ++ l := by
  induction l with
  | nil => intro start _ _; simp
  | cons c cs ih =>
      intro start hnd hf
      have hxc : c ∉ cs := (List.nodup_cons.mp hnd).1
      simp only [List.foldl_cons]
      rw [if_neg (hf c (List.mem_cons_self c cs))]
      have hfresh : ∀ x ∈ cs, x ∉ start ++ [c] := by
        intro x hx hmem
        rcases List.mem_append.mp hmem with h1 | h1
        · exact hf x (List.mem_cons_of_mem _ hx) h1
        · rw [List.mem_singleton] at h1
          exact hxc (h1 ▸ hx)
      rw [ih _ (List.nodup_cons.mp hnd).2 hfresh, List.append_assoc]
      rfl

theorem removeEach_append_self (l : List Nat) : ∀ (start : List Nat),
    (∀ x ∈ l, x ∉ start) → removeEach l (start ++ l) = start := by
  induction l with
  | nil => intro start _; simp [removeEach]
  | cons c cs ih =>
      intro start hf
      show removeEach cs ((start ++ c :: cs).erase c) = start
      rw [List.erase_append_right _ (hf c (List.mem_cons_self c cs)),
        List.erase_cons_head]
      exact ih start (fun x hx => hf x (List.mem_cons_of_mem _ hx))

theorem foldl_append_perm (l : List Nat) : ∀ {s t : List Nat}, s.Perm t →
    (l.foldl (fun acc x => if x ∈ acc then acc else acc ++ [x]) s).Perm
    (l.foldl (fun acc x => if x ∈ acc then acc else acc ++ [x]) t) := by
  induction l with
  | nil => intro s t h; exact h
  | cons c cs ih =>
      intro s t h
      simp only [List.foldl_cons]
      by_cases hc : c ∈ s
      · rw [if_pos hc, if_pos (h.mem_iff.mp hc)]
        exact ih h
      · rw [if_neg hc, if_neg (fun hh => hc (h.mem_iff.mpr hh))]
        exact ih (h.append_right [c])

theorem removeEach_perm (l : List Nat) : ∀ {s t : List Nat}, s.Perm t →
    (removeEach l s).Perm (removeEach l t) := by
  induction l with
  | nil => intro s t h; exact h
  | cons c cs ih =>
      intro s t h
      show (removeEach cs (s.erase c)).Perm (removeEach cs (t.erase c))
      exact ih (h.erase c)

end WireDiagram

namespace WireDiagram

/-! ### C1, per-action helpers: single-key heap updates -/

theorem nheap_setNode_self (s : Scene) (n : Nat) (d : NodeData) :
    ((s.setNode n d).nheap n) = d := by
  simp [Scene.setNode]

theorem iheap_setImage_self (s : Scene) (i : Nat) (d : ImgData) :
    ((s.setImage i d).iheap i) = d := by
  simp [Scene.setImage]

theorem setNode_setNode (s : Scene) (n : Nat) (d d' : NodeData) :
    (s.setNode n d).setNode n d' = s.setNode n d' := by
  ext k <;> simp [Scene.setNode]
  by_cases h : k = n <;> simp [h]

theorem setImage_setImage (s : Scene) (i : Nat) (d d' : ImgData) :
    (s.setImage i d).setImage i d' = s.setImage i d' := by
  ext k <;> simp [Scene.setImage]
  by_cases h : k = i <;> simp [h]

/-- Re-inserting the element just popped restores the list exactly. -/
theorem insertIdx_eraseIdx_restore {α : Type} :
    ∀ (ws : List α) (idx : Nat) (wp : α), ws[idx]? = some wp →
    (ws.eraseIdx idx).insertIdx idx wp = ws := by
  intro ws
  induction ws with
  | nil => intro idx wp h; simp at h
  | cons w t ih =>
      intro idx wp h
      cases idx with
      | zero =>
          simp at h
          simp [h]
      | succ j =>
          simp only [List.getElem?_cons_succ] at h
          simp only [List.eraseIdx_cons_succ, List.insertIdx_succ_cons]
          rw [ih j wp h]

/-! #### More `dict` (association-list) lemmas -/

theorem alookup_isSome_of_mem {α : Type} {l : List (Nat × α)} {k : Nat}
    (h : k ∈ l.map Prod.fst) : ∃ v, alookup l k = some v := by
  induction l with
  | nil => simp at h
  | cons p rest ih =>
      obtain ⟨a, b⟩ := p
      rw [alookup_cons]
      by_cases hak : a = k
      · exact ⟨b, by rw [if_pos hak]⟩
      · rw [if_neg hak]
        rw [List.map_cons, List.mem_cons] at h
        rcases h with h | h
        · exact absurd h.symm hak
        · exact ih h

theorem alookup_some_mem {α : Type} {l : List (Nat × α)} {k : Nat} {v : α}
    (h : alookup l k = some v) : (k, v) ∈ l := by
  unfold alookup at h
  cases hf : l.find? (fun p => p.1 == k) with
  | none => rw [hf] at h; exact Option.noConfusion h
  | some q =>
      rw [hf] at h
      have hq1 : q.1 = k := by
        have := List.find?_some hf
        simpa using this
      have hq2 : q.2 = v := by simpa using h
      have hmem : q ∈ l := List.mem_of_find?_eq_some hf
      have : q = (k, v) := by
        cases q
        simp only at hq1 hq2
        rw [hq1, hq2]
      rw [← this]
      exact hmem

/-- A keyed heap-update fold leaves keys outside the key list untouched. -/
theorem foldl_keyed_update_outside {β δ : Type} (g : Nat → β → δ → δ) :
    ∀ (l : List (Nat × β)) (h : Nat → δ) (k : Nat), k ∉ l.map Prod.fst →
    (l.foldl (fun hh p => fun j => if j = p.1 then g p.1 p.2 (hh p.1) else hh j) h) k
      = h k := by
  intro l
  induction l with
  | nil => intro h k _; rfl
  | cons p rest ih =>
      intro h k hk
      rw [List.map_cons, List.mem_cons] at hk
      push_neg at hk
      simp only [List.foldl_cons]
      rw [ih _ k hk.2]
      rw [if_neg hk.1]

/-- A keyed fold that only ever rewrites through a setter `σ` is erased by a
final overwrite through the same setter. -/
theorem foldl_overwrite {δ γ : Type} (σ : δ → γ → δ)
    (hsig : ∀ d v q, σ (σ d v) q = σ d q) :
    ∀ (l : List (Nat × γ)) (h : Nat → δ) (k : Nat) (q : γ),
    σ ((l.foldl (fun hh p => fun j => if j = p.1 then σ (hh p.1) p.2 else hh j) h) k) q
      = σ (h k) q := by
  intro l
  induction l with
  | nil => intro h k q; rfl
  | cons p rest ih =>
      intro h k q
      simp only [List.foldl_cons]
      rw [ih]
      by_cases hk : k = p.1
      · rw [if_pos hk, hk, hsig]
      · rw [if_neg hk]

end WireDiagram

namespace WireDiagram

/-! ### C1: specialized fold-evaluation instances

Each of the scene-mutating folds of `CreateModuleAction` / `MoveModuleAction`
(execute and undo) is bridged to a heap-level fold, which is then evaluated
pointwise. -/

theorem cmNodeFold (ns : List Nat) (mid : String) (s : Scene) :
    ns.foldl (fun sc n => sc.setNode n
        { sc.nheap n with locked := true, moduleId := some mid }) s
      = { s with nheap := ns.foldl (fun hh n => fun j =>
          if j = n then { hh n with locked := true, moduleId := some mid }
          else hh j) s.nheap } :=
  scene_foldl_setNode_plain
    (fun _ d => { d with locked := true, moduleId := some mid }) ns s

theorem cmNodeFold_eval (ns : List Nat) (mid : String) (hnd : ns.Nodup)
    (h : Nat → NodeData) (k : Nat) :
    (ns.foldl (fun hh n => fun j =>
        if j = n then { hh n with locked := true, moduleId := some mid }
        else hh j) h) k
      = if k ∈ ns then { h k with locked := true, moduleId := some mid }
        else h k :=
  foldl_keyed_update_plain
    (fun _ d => { d with locked := true, moduleId := some mid }) ns hnd h k

theorem cmImgFold (imgs : List Nat) (mid : String) (s : Scene) :
    imgs.foldl (fun sc i => sc.setImage i
        { sc.iheap i with mid := some mid }) s
      = { s with iheap := imgs.foldl (fun hh i => fun j =>
          if j = i then { hh i with mid := some mid } else hh j) s.iheap } :=
  scene_foldl_setImage_plain (fun _ d => { d with mid := some mid }) imgs s

theorem cmImgFold_eval (imgs : List Nat) (mid : String) (hnd : imgs.Nodup)
    (h : Nat → ImgData) (k : Nat) :
    (imgs.foldl (fun hh i => fun j =>
        if j = i then { hh i with mid := some mid } else hh j) h) k
      = if k ∈ imgs then { h k with mid := some mid } else h k :=
  foldl_keyed_update_plain (fun _ d => { d with mid := some mid }) imgs hnd h k

theorem cmUNodeFold (ns : List Nat) (ol : List (Nat × Bool))
    (om : List (Nat × Option String)) (s : Scene) :
    ns.foldl (fun sc n => sc.setNode n
        { sc.nheap n with locked := (alookup ol n).getD false,
                          moduleId := (alookup om n).getD none }) s
      = { s with nheap := ns.foldl (fun hh n => fun j =>
          if j = n then { hh n with locked := (alookup ol n).getD false,
                                    moduleId := (alookup om n).getD none }
          else hh j) s.nheap } :=
  scene_foldl_setNode_plain
    (fun n d => { d with locked := (alookup ol n).getD false,
                         moduleId := (alookup om n).getD none }) ns s

theorem cmUNodeFold_eval (ns : List Nat) (ol : List (Nat × Bool))
    (om : List (Nat × Option String)) (hnd : ns.Nodup)
    (h : Nat → NodeData) (k : Nat) :
    (ns.foldl (fun hh n => fun j =>
        if j = n then { hh n with locked := (alookup ol n).getD false,
                                  moduleId := (alookup om n).getD none }
        else hh j) h) k
      = if k ∈ ns then { h k with locked := (alookup ol k).getD false,
                                  moduleId := (alookup om k).getD none }
        else h k :=
  foldl_keyed_update_plain
    (fun n d => { d with locked := (alookup ol n).getD false,
                         moduleId := (alookup om n).getD none }) ns hnd h k

theorem cmUImgFold (imgs : List Nat) (oim : List (Nat × Option String))
    (s : Scene) :
    imgs.foldl (fun sc i => sc.setImage i
        { sc.iheap i with mid := (alookup oim i).getD none }) s
      = { s with iheap := imgs.foldl (fun hh i => fun j =>
          if j = i then { hh i with mid := (alookup oim i).getD none }
          else hh j) s.iheap } :=
  scene_foldl_setImage_plain
    (fun i d => { d with mid := (alookup oim i).getD none }) imgs s

theorem cmUImgFold_eval (imgs : List Nat) (oim : List (Nat × Option String))
    (hnd : imgs.Nodup) (h : Nat → ImgData) (k : Nat) :
    (imgs.foldl (fun hh i => fun j =>
        if j = i then { hh i with mid := (alookup oim i).getD none }
        else hh j) h) k
      = if k ∈ imgs then { h k with mid := (alookup oim k).getD none }
        else h k :=
  foldl_keyed_update_plain
    (fun i d => { d with mid := (alookup oim i).getD none }) imgs hnd h k

theorem mmNodeFold (l : List (Nat × Pt)) (s : Scene) :
    l.foldl (fun sc p => sc.setNode p.1 { sc.nheap p.1 with pos := p.2 }) s
      = { s with nheap := l.foldl (fun hh p => fun j =>
          if j = p.1 then { hh p.1 with pos := p.2 } else hh j) s.nheap } :=
  scene_foldl_setNode_assoc (fun _ v d => { d with pos := v }) l s

theorem alookup_none_not_mem {α : Type} {l : List (Nat × α)} {k : Nat}
    (h : alookup l k = none) : k ∉ l.map Prod.fst := by
  intro hm
  obtain ⟨v, hv⟩ := alookup_isSome_of_mem hm
  rw [h] at hv
  exact Option.noConfusion hv

theorem mmNodeFold_eval_some (l : List (Nat × Pt)) (hnd : (l.map Prod.fst).Nodup)
    (h : Nat → NodeData) (k : Nat) (v : Pt) (halk : alookup l k = some v) :
    (l.foldl (fun hh p => fun j =>
        if j = p.1 then { hh p.1 with pos := p.2 } else hh j) h) k
      = { h k with pos := v } := by
  rw [foldl_keyed_update (fun _ v d => { d with pos := v }) l hnd h k, halk]

theorem mmNodeFold_outside (l : List (Nat × Pt)) (h : Nat → NodeData) (k : Nat)
    (hk : k ∉ l.map Prod.fst) :
    (l.foldl (fun hh p => fun j =>
        if j = p.1 then { hh p.1 with pos := p.2 } else hh j) h) k = h k :=
  foldl_keyed_update_outside (fun _ v d => { d with pos := v }) l h k hk

theorem mmNodeFold_overwrite (l : List (Nat × Pt)) (h : Nat → NodeData)
    (k : Nat) (q : Pt) :
    { (l.foldl (fun hh p => fun j =>
        if j = p.1 then { hh p.1 with pos := p.2 } else hh j) h) k
      with pos := q } = { h k with pos := q } :=
  foldl_overwrite (fun d v => { d with pos := v }) (fun _ _ _ => rfl) l h k q

theorem mmImgFold (l : List (Nat × Pt)) (s : Scene) :
    l.foldl (fun sc p => sc.setImage p.1 { sc.iheap p.1 with pos := p.2 }) s
      = { s with iheap := l.foldl (fun hh p => fun j =>
          if j = p.1 then { hh p.1 with pos := p.2 } else hh j) s.iheap } :=
  scene_foldl_setImage_assoc (fun _ v d => { d with pos := v }) l s

theorem mmImgFold_eval_some (l : List (Nat × Pt)) (hnd : (l.map Prod.fst).Nodup)
    (h : Nat → ImgData) (k : Nat) (v : Pt) (halk : alookup l k = some v) :
    (l.foldl (fun hh p => fun j =>
        if j = p.1 then { hh p.1 with pos := p.2 } else hh j) h) k
      = { h k with pos := v } := by
  rw [foldl_keyed_update (fun _ v d => { d with pos := v }) l hnd h k, halk]

theorem mmImgFold_outside (l : List (Nat × Pt)) (h : Nat → ImgData) (k : Nat)
    (hk : k ∉ l.map Prod.fst) :
    (l.foldl (fun hh p => fun j =>
        if j = p.1 then { hh p.1 with pos := p.2 } else hh j) h) k = h k :=
  foldl_keyed_update_outside (fun _ v d => { d with pos := v }) l h k hk

theorem mmImgFold_overwrite (l : List (Nat × Pt)) (h : Nat → ImgData)
    (k : Nat) (q : Pt) :
    { (l.foldl (fun hh p => fun j =>
        if j = p.1 then { hh p.1 with pos := p.2 } else hh j) h) k
      with pos := q } = { h k with pos := q } :=
  foldl_overwrite (fun d v => { d with pos := v }) (fun _ _ _ => rfl) l h k q

theorem mmConnFold (l : List (Nat × List Pt)) (s : Scene) :
    l.foldl (fun sc p => sc.setConn p.1
        { sc.cheap p.1 with waypoints := p.2 }) s
      = { s with cheap := l.foldl (fun hh p => fun j =>
          if j = p.1 then { hh p.1 with waypoints := p.2 } else hh j) s.cheap } :=
  scene_foldl_setConn_assoc (fun _ v d => { d with waypoints := v }) l s

theorem mmConnFold_eval_some (l : List (Nat × List Pt))
    (hnd : (l.map Prod.fst).Nodup) (h : Nat → ConnData) (k : Nat)
    (v : List Pt) (halk : alookup l k = some v) :
    (l.foldl (fun hh p => fun j =>
        if j = p.1 then { hh p.1 with waypoints := p.2 } else hh j) h) k
      = { h k with waypoints := v } := by
  rw [foldl_keyed_update (fun _ v d => { d with waypoints := v }) l hnd h k, halk]

theorem mmConnFold_outside (l : List (Nat × List Pt)) (h : Nat → ConnData)
    (k : Nat) (hk : k ∉ l.map Prod.fst) :
    (l.foldl (fun hh p => fun j =>
        if j = p.1 then { hh p.1 with waypoints := p.2 } else hh j) h) k = h k :=
  foldl_keyed_update_outside (fun _ v d => { d with waypoints := v }) l h k hk

theorem mmConnFold_overwrite (l : List (Nat × List Pt)) (h : Nat → ConnData)
    (k : Nat) (q : List Pt) :
    { (l.foldl (fun hh p => fun j =>
        if j = p.1 then { hh p.1 with waypoints := p.2 } else hh j) h) k
      with waypoints := q } = { h k with waypoints := q } :=
  foldl_overwrite (fun d v => { d with waypoints := v }) (fun _ _ _ => rfl)
    l h k q

end WireDiagram

namespace WireDiagram

/-! ### C1: exact execute-then-undo inversion for the module commands -/

/-- `CreateModuleAction.undo` restores exactly the locked/module_id state its
construction captured, provided the captured dictionaries match the scene the
command executed in (which is how the canvas builds it). -/
theorem exec_undo_createModule (s : Scene) (ns imgs : List Nat) (mid : String)
    (ol : List (Nat × Bool)) (om oim : List (Nat × Option String))
    (hns : ns.Nodup) (himgs : imgs.Nodup)
    (hol : ∀ n ∈ ns, alookup ol n = some (s.nheap n).locked)
    (hom : ∀ n ∈ ns, alookup om n = some (s.nheap n).moduleId)
    (hoim : ∀ i ∈ imgs, alookup oim i = some (s.iheap i).mid) :
    undoAction (.createModule ns imgs mid ol om oim)
      (execAction (.createModule ns imgs mid ol om oim) s).2 = s := by
  simp only [execAction, undoAction]
  rw [cmNodeFold, cmImgFold, cmUNodeFold, cmUImgFold]
  dsimp only
  refine Scene.ext rfl rfl rfl ?_ rfl ?_
  · funext k
    dsimp only
    rw [cmUNodeFold_eval ns ol om hns, cmNodeFold_eval ns mid hns]
    by_cases hk : k ∈ ns
    · rw [if_pos hk, if_pos hk, hol k hk, hom k hk]
      rfl
    · rw [if_neg hk, if_neg hk]
  · funext k
    dsimp only
    rw [cmUImgFold_eval imgs oim himgs, cmImgFold_eval imgs mid himgs]
    by_cases hk : k ∈ imgs
    · rw [if_pos hk, if_pos hk, hoim k hk]
      rfl
    · rw [if_neg hk, if_neg hk]

/-- `MoveModuleAction.undo` restores exactly the positions/waypoints captured
in its `old_*` dictionaries, provided those captured values match the scene
the command executed in and every `new_*` key also有 an `old_*` entry. -/
theorem exec_undo_moveModule (s : Scene)
    (oldN newN oldI newI : List (Nat × Pt)) (oldW newW : List (Nat × List Pt))
    (hndN : (oldN.map Prod.fst).Nodup) (hndI : (oldI.map Prod.fst).Nodup)
    (hndW : (oldW.map Prod.fst).Nodup)
    (hsubN : ∀ p ∈ newN, p.1 ∈ oldN.map Prod.fst)
    (hsubI : ∀ p ∈ newI, p.1 ∈ oldI.map Prod.fst)
    (hsubW : ∀ p ∈ newW, p.1 ∈ oldW.map Prod.fst)
    (holdN : ∀ p ∈ oldN, (s.nheap p.1).pos = p.2)
    (holdI : ∀ p ∈ oldI, (s.iheap p.1).pos = p.2)
    (holdW : ∀ p ∈ oldW, (s.cheap p.1).waypoints = p.2) :
    undoAction (.moveModule oldN newN oldI newI oldW newW)
      (execAction (.moveModule oldN newN oldI newI oldW newW) s).2 = s := by
  simp only [execAction, undoAction]
  rw [mmNodeFold newN s, mmImgFold newI, mmConnFold newW, mmNodeFold oldN,
    mmImgFold oldI, mmConnFold oldW]
  dsimp only
  refine Scene.ext rfl rfl rfl ?_ ?_ ?_
  · funext k
    dsimp only
    cases halk : alookup oldN k with
    | some v =>
        have hv : (s.nheap k).pos = v := holdN (k, v) (alookup_some_mem halk)
        rw [mmNodeFold_eval_some oldN hndN _ k v halk, mmNodeFold_overwrite,
          ← hv]
    | none =>
        have hout := alookup_none_not_mem halk
        have hknew : k ∉ newN.map Prod.fst := by
          intro hm
          rw [List.mem_map] at hm
          obtain ⟨p, hp, hpk⟩ := hm
          exact hout (hpk ▸ hsubN p hp)
        rw [mmNodeFold_outside oldN _ k hout,
          mmNodeFold_outside newN s.nheap k hknew]
  · funext k
    dsimp only
    cases halk : alookup oldW k with
    | some v =>
        have hv : (s.cheap k).waypoints = v := holdW (k, v) (alookup_some_mem halk)
        rw [mmConnFold_eval_some oldW hndW _ k v halk, mmConnFold_overwrite,
          ← hv]
    | none =>
        have hout := alookup_none_not_mem halk
        have hknew : k ∉ newW.map Prod.fst := by
          intro hm
          rw [List.mem_map] at hm
          obtain ⟨p, hp, hpk⟩ := hm
          exact hout (hpk ▸ hsubW p hp)
        rw [mmConnFold_outside oldW _ k hout,
          mmConnFold_outside newW s.cheap k hknew]
  · funext k
    dsimp only
    cases halk : alookup oldI k with
    | some v =>
        have hv : (s.iheap k).pos = v := holdI (k, v) (alookup_some_mem halk)
        rw [mmImgFold_eval_some oldI hndI _ k v halk, mmImgFold_overwrite,
          ← hv]
    | none =>
        have hout := alookup_none_not_mem halk
        have hknew : k ∉ newI.map Prod.fst := by
          intro hm
          rw [List.mem_map] at hm
          obtain ⟨p, hp, hpk⟩ := hm
          exact hout (hpk ▸ hsubI p hp)
        rw [mmImgFold_outside oldI _ k hout,
          mmImgFold_outside newI s.iheap k hknew]

/-- `DuplicateModuleAction.undo` removes exactly the objects its execute
appended, provided those objects were fresh (as `duplicate_module` guarantees:
it builds brand-new copies). -/
theorem exec_undo_duplicateModule (s : Scene) (ns imgs cs : List Nat)
    (hns : ns.Nodup) (himgs : imgs.Nodup) (hcs : cs.Nodup)
    (hfn : ∀ x ∈ ns, x ∉ s.nodes) (hfi : ∀ x ∈ imgs, x ∉ s.images)
    (hfc : ∀ x ∈ cs, x ∉ s.conns) :
    undoAction (.duplicateModule ns imgs cs)
      (execAction (.duplicateModule ns imgs cs) s).2 = s := by
  simp only [execAction, undoAction]
  rw [scene_foldl_nodes_append, scene_foldl_images_append,
    scene_foldl_conns_append, scene_foldl_nodes_erase,
    scene_foldl_images_erase, scene_foldl_conns_erase]
  dsimp only
  rw [foldl_append_fresh ns s.nodes hns hfn,
    removeEach_append_self ns s.nodes hfn,
    foldl_append_fresh imgs s.images himgs hfi,
    removeEach_append_self imgs s.images hfi,
    foldl_append_fresh cs s.conns hcs hfc,
    removeEach_append_self cs s.conns hfc]

end WireDiagram

namespace WireDiagram

theorem undoRemoveWaypoint_setConn (t : Scene) (c : Nat) (wp : Pt) (i : Nat)
    (d : ConnData) :
    undoAction (.removeWaypoint c wp i) (t.setConn c d)
      = t.setConn c { d with waypoints := waypointInsert d.waypoints wp i } := by
  show (t.setConn c d).setConn c
      { (t.setConn c d).cheap c with
        waypoints := waypointInsert ((t.setConn c d).cheap c).waypoints wp i } = _
  rw [cheap_setConn_self, setConn_setConn]

/-- Per-command exact inversion: executing any command at a scene satisfying
its construction-site precondition and the canvas list invariant, then
running `undo` of the (re-captured) command on the result, restores the
original scene up to list order. -/
theorem exec_undo_exact (a : Action) (s : Scene) (hwf : wfAt a s = true)
    (hinv : invB s = true) :
    SceneEq (undoAction (execAction a s).1 (execAction a s).2) s := by
  have hinv' : (s.nodes.Nodup ∧ s.conns.Nodup) ∧ s.images.Nodup := by
    simpa [invB] using hinv
  cases a with
  | addNode n =>
      simp only [wfAt, Bool.and_eq_true, decide_eq_true_eq] at hwf
      obtain ⟨h1, h2⟩ := hwf
      apply sceneEq_of_eq
      simp only [execAction, undoAction]
      rw [if_neg h1]
      dsimp only
      have hm : n ∈ s.nodes ++ [n] := by simp
      rw [if_pos hm]
      refine Scene.ext ?_ ?_ rfl rfl rfl rfl
      · show (s.nodes ++ [n]).erase n = s.nodes
        rw [List.erase_append_right _ h1, List.erase_cons_head, List.append_nil]
      · show s.conns.filter (fun c => !(s.refs c n)) = s.conns
        exact List.filter_eq_self.mpr (fun c hc => by rw [h2 c hc]; rfl)
  | deleteNode n cap =>
      simp only [wfAt, decide_eq_true_eq] at hwf
      obtain ⟨⟨hnd, hcnd⟩, _⟩ := hinv'
      simp only [execAction, undoAction]
      rw [if_pos hwf]
      dsimp only
      have hner : n ∉ s.nodes.erase n :=
        fun hm => ((List.Nodup.mem_erase_iff hnd).mp hm).1 rfl
      rw [if_neg hner]
      rw [scene_foldl_conns_append]
      dsimp only
      rw [removeEach_filter (fun c => s.refs c n) s.conns]
      have hfresh : ∀ x ∈ s.conns.filter (fun c => s.refs c n),
          x ∉ s.conns.filter (fun c => !(s.refs c n)) := by
        intro x hx hmem
        have h1 := List.of_mem_filter hx
        have h2 := List.of_mem_filter hmem
        rw [h1] at h2
        simp at h2
      rw [foldl_append_fresh _ _ (hcnd.filter _) hfresh]
      exact ⟨List.perm_append_comm.trans (List.perm_cons_erase hwf).symm,
        List.perm_append_comm.trans (List.filter_append_perm _ s.conns),
        List.Perm.refl _, rfl, rfl, rfl⟩
  | addConnection c =>
      simp only [wfAt, decide_eq_true_eq] at hwf
      apply sceneEq_of_eq
      simp only [execAction, undoAction]
      rw [if_neg hwf]
      refine Scene.ext rfl ?_ rfl rfl rfl rfl
      show (s.conns ++ [c]).erase c = s.conns
      rw [List.erase_append_right _ hwf, List.erase_cons_head, List.append_nil]
  | deleteConnection c =>
      simp only [wfAt, decide_eq_true_eq] at hwf
      obtain ⟨⟨_, hcnd⟩, _⟩ := hinv'
      simp only [execAction, undoAction]
      have hner : c ∉ s.conns.erase c :=
        fun hm => ((List.Nodup.mem_erase_iff hcnd).mp hm).1 rfl
      rw [if_neg hner]
      exact ⟨List.Perm.refl _,
        List.perm_append_comm.trans (List.perm_cons_erase hwf).symm,
        List.Perm.refl _, rfl, rfl, rfl⟩
  | moveNode n old newPos =>
      simp only [wfAt, decide_eq_true_eq] at hwf
      apply sceneEq_of_eq
      show (s.setNode n { s.nheap n with pos := newPos }).setNode n
          { (s.setNode n { s.nheap n with pos := newPos }).nheap n
            with pos := old } = s
      rw [nheap_setNode_self, setNode_setNode, ← hwf]
      exact setNode_self s n
  | changeNodeColor n old newColor =>
      simp only [wfAt, decide_eq_true_eq] at hwf
      apply sceneEq_of_eq
      show (s.setNode n { s.nheap n with color := newColor }).setNode n
          { (s.setNode n { s.nheap n with color := newColor }).nheap n
            with color := old } = s
      rw [nheap_setNode_self, setNode_setNode, ← hwf]
      exact setNode_self s n
  | changeNodeClass n oldC newC oldCol newCol =>
      simp only [wfAt, Bool.and_eq_true, decide_eq_true_eq] at hwf
      obtain ⟨h1, h2⟩ := hwf
      apply sceneEq_of_eq
      show (s.setNode n { s.nheap n with nclass := newC, color := newCol }).setNode n
          { (s.setNode n { s.nheap n with nclass := newC, color := newCol }).nheap n
            with nclass := oldC, color := oldCol } = s
      rw [nheap_setNode_self, setNode_setNode, ← h1, ← h2]
      exact setNode_self s n
  | changeConnectionColor c old newColor =>
      simp only [wfAt, decide_eq_true_eq] at hwf
      apply sceneEq_of_eq
      show (s.setConn c { s.cheap c with color := newColor }).setConn c
          { (s.setConn c { s.cheap c with color := newColor }).cheap c
            with color := old } = s
      rw [cheap_setConn_self, setConn_setConn, ← hwf]
      exact setConn_self s c
  | addImage i =>
      simp only [wfAt, decide_eq_true_eq] at hwf
      apply sceneEq_of_eq
      simp only [execAction, undoAction]
      rw [if_neg hwf]
      refine Scene.ext rfl rfl ?_ rfl rfl rfl
      show (s.images ++ [i]).erase i = s.images
      rw [List.erase_append_right _ hwf, List.erase_cons_head, List.append_nil]
  | deleteImage i =>
      simp only [wfAt, decide_eq_true_eq] at hwf
      obtain ⟨⟨_, _⟩, hind⟩ := hinv'
      simp only [execAction, undoAction]
      have hner : i ∉ s.images.erase i :=
        fun hm => ((List.Nodup.mem_erase_iff hind).mp hm).1 rfl
      rw [if_neg hner]
      exact ⟨List.Perm.refl _, List.Perm.refl _,
        List.perm_append_comm.trans (List.perm_cons_erase hwf).symm,
        rfl, rfl, rfl⟩
  | moveImage i old newPos =>
      simp only [wfAt, decide_eq_true_eq] at hwf
      apply sceneEq_of_eq
      show (s.setImage i { s.iheap i with pos := newPos }).setImage i
          { (s.setImage i { s.iheap i with pos := newPos }).iheap i
            with pos := old } = s
      rw [iheap_setImage_self, setImage_setImage, ← hwf]
      exact setImage_self s i
  | resizeImage i oldW oldH newW newH =>
      simp only [wfAt, Bool.and_eq_true, decide_eq_true_eq] at hwf
      obtain ⟨h1, h2⟩ := hwf
      apply sceneEq_of_eq
      show (s.setImage i { s.iheap i with width := newW, height := newH }).setImage i
          { (s.setImage i { s.iheap i with width := newW, height := newH }).iheap i
            with width := oldW, height := oldH } = s
      rw [iheap_setImage_self, setImage_setImage, ← h1, ← h2]
      exact setImage_self s i
  | createModule ns imgs mid ol om oim =>
      simp only [wfAt, Bool.and_eq_true, decide_eq_true_eq] at hwf
      obtain ⟨⟨⟨⟨hns, himgs⟩, hol⟩, hom⟩, hoim⟩ := hwf
      exact sceneEq_of_eq
        (exec_undo_createModule s ns imgs mid ol om oim hns himgs hol hom hoim)
  | moveModule oldN newN oldI newI oldW newW =>
      simp only [wfAt, Bool.and_eq_true, decide_eq_true_eq] at hwf
      obtain ⟨⟨⟨⟨⟨⟨⟨⟨hndN, hndI⟩, hndW⟩, hsubN⟩, hsubI⟩, hsubW⟩,
        holdN⟩, holdI⟩, holdW⟩ := hwf
      exact sceneEq_of_eq
        (exec_undo_moveModule s oldN newN oldI newI oldW newW hndN hndI hndW
          hsubN hsubI hsubW holdN holdI holdW)
  | duplicateModule ns imgs cs =>
      simp only [wfAt, Bool.and_eq_true, decide_eq_true_eq] at hwf
      obtain ⟨⟨⟨⟨⟨hns, himgs⟩, hcs⟩, hfn⟩, hfi⟩, hfc⟩ := hwf
      exact sceneEq_of_eq
        (exec_undo_duplicateModule s ns imgs cs hns himgs hcs hfn hfi hfc)
  | addWaypoint c wp idx =>
      exact sceneEq_of_eq (addWaypoint_roundtrip c wp idx s)
  | removeWaypoint c wp idx =>
      simp only [wfAt, decide_eq_true_eq] at hwf
      apply sceneEq_of_eq
      have hlt : idx < (s.cheap c).waypoints.length := by
        by_contra hcon
        rw [List.getElem?_eq_none (Nat.le_of_not_lt hcon)] at hwf
        exact Option.noConfusion hwf
      have hpop : waypointPop (s.cheap c).waypoints wp idx
          = (s.cheap c).waypoints.eraseIdx idx := by
        unfold waypointPop
        rw [if_pos ⟨hlt, hwf⟩]
      have hins : waypointInsert ((s.cheap c).waypoints.eraseIdx idx) wp idx
          = (s.cheap c).waypoints := by
        unfold waypointInsert
        have hle : idx ≤ ((s.cheap c).waypoints.eraseIdx idx).length := by
          rw [List.length_eraseIdx]
          simp only [hlt, if_pos]
          omega
        rw [if_pos hle]
        exact insertIdx_eraseIdx_restore _ idx wp hwf
      have h1 : (execAction (.removeWaypoint c wp idx) s).2
          = s.setConn c { s.cheap c with
              waypoints := waypointPop (s.cheap c).waypoints wp idx } := rfl
      have h0 : (execAction (.removeWaypoint c wp idx) s).1
          = .removeWaypoint c wp idx := rfl
      rw [h0, h1, undoRemoveWaypoint_setConn]
      show s.setConn c { s.cheap c with
          waypoints := waypointInsert (waypointPop (s.cheap c).waypoints wp idx) wp idx } = s
      rw [hpop, hins]
      exact setConn_self s c

end WireDiagram

namespace WireDiagram

/-! ### C1: congruence of execute/undo with respect to scene equality -/

theorem execAction_deleteNode_neg {s : Scene} {n : Nat} (h : n ∉ s.nodes)
    (cap : List Nat) :
    execAction (.deleteNode n cap) s = (.deleteNode n cap, s) := by
  simp only [execAction]
  rw [if_neg h]

theorem sceneEq_setNode {s t : Scene} (h : SceneEq s t) (n : Nat)
    (d : NodeData) : SceneEq (s.setNode n d) (t.setNode n d) :=
  ⟨h.1, h.2.1, h.2.2.1,
   by show (fun k => if k = n then d else s.nheap k) = _
      rw [h.2.2.2.1]
      rfl,
   h.2.2.2.2.1, h.2.2.2.2.2⟩

theorem sceneEq_setConn {s t : Scene} (h : SceneEq s t) (c : Nat)
    (d : ConnData) : SceneEq (s.setConn c d) (t.setConn c d) :=
  ⟨h.1, h.2.1, h.2.2.1, h.2.2.2.1,
   by show (fun k => if k = c then d else s.cheap k) = _
      rw [h.2.2.2.2.1]
      rfl,
   h.2.2.2.2.2⟩

theorem sceneEq_setImage {s t : Scene} (h : SceneEq s t) (i : Nat)
    (d : ImgData) : SceneEq (s.setImage i d) (t.setImage i d) :=
  ⟨h.1, h.2.1, h.2.2.1, h.2.2.2.1, h.2.2.2.2.1,
   by show (fun k => if k = i then d else s.iheap k) = _
      rw [h.2.2.2.2.2]
      rfl⟩

/-- `Action.execute` maps equal-up-to-list-order scenes to equal-up-to-list-
order scenes (the mutations depend on the lists only through membership and
on the heaps pointwise). -/
theorem exec_congr (a : Action) {s t : Scene} (h : SceneEq s t) :
    SceneEq (execAction a s).2 (execAction a t).2 := by
  have hN := h.1
  have hC := h.2.1
  have hI := h.2.2.1
  have hnh := h.2.2.2.1
  have hch := h.2.2.2.2.1
  have hih := h.2.2.2.2.2
  cases a with
  | addNode n =>
      show SceneEq (if n ∈ s.nodes then s else { s with nodes := s.nodes ++ [n] })
        (if n ∈ t.nodes then t else { t with nodes := t.nodes ++ [n] })
      by_cases hm : n ∈ s.nodes
      · rw [if_pos hm, if_pos (hN.mem_iff.mp hm)]
        exact h
      · rw [if_neg hm, if_neg (fun hh => hm (hN.mem_iff.mpr hh))]
        exact ⟨hN.append_right [n], hC, hI, hnh, hch, hih⟩
  | deleteNode n cap =>
      by_cases hm : n ∈ s.nodes
      · rw [execAction_deleteNode_pos hm cap,
          execAction_deleteNode_pos (hN.mem_iff.mp hm) cap]
        dsimp only
        refine ⟨hN.erase n, ?_, hI, hnh, hch, hih⟩
        rw [removeEach_filter, removeEach_filter]
        have hpred : (fun c => !(s.refs c n)) = (fun c => !(t.refs c n)) := by
          funext c
          simp only [Scene.refs]
          rw [hch]
        rw [hpred]
        exact hC.filter _
      · rw [execAction_deleteNode_neg hm cap,
          execAction_deleteNode_neg (fun hh => hm (hN.mem_iff.mpr hh)) cap]
        exact h
  | addConnection c =>
      show SceneEq (if c ∈ s.conns then s else { s with conns := s.conns ++ [c] })
        (if c ∈ t.conns then t else { t with conns := t.conns ++ [c] })
      by_cases hm : c ∈ s.conns
      · rw [if_pos hm, if_pos (hC.mem_iff.mp hm)]
        exact h
      · rw [if_neg hm, if_neg (fun hh => hm (hC.mem_iff.mpr hh))]
        exact ⟨hN, hC.append_right [c], hI, hnh, hch, hih⟩
  | deleteConnection c =>
      exact ⟨hN, hC.erase c, hI, hnh, hch, hih⟩
  | moveNode n old newPos =>
      show SceneEq (s.setNode n { s.nheap n with pos := newPos })
        (t.setNode n { t.nheap n with pos := newPos })
      rw [hnh]
      exact sceneEq_setNode h n _
  | changeNodeColor n old newColor =>
      show SceneEq (s.setNode n { s.nheap n with color := newColor })
        (t.setNode n { t.nheap n with color := newColor })
      rw [hnh]
      exact sceneEq_setNode h n _
  | changeNodeClass n oldC newC oldCol newCol =>
      show SceneEq (s.setNode n { s.nheap n with nclass := newC, color := newCol })
        (t.setNode n { t.nheap n with nclass := newC, color := newCol })
      rw [hnh]
      exact sceneEq_setNode h n _
  | changeConnectionColor c old newColor =>
      show SceneEq (s.setConn c { s.cheap c with color := newColor })
        (t.setConn c { t.cheap c with color := newColor })
      rw [hch]
      exact sceneEq_setConn h c _
  | addImage i =>
      show SceneEq (if i ∈ s.images then s else { s with images := s.images ++ [i] })
        (if i ∈ t.images then t else { t with images := t.images ++ [i] })
      by_cases hm : i ∈ s.images
      · rw [if_pos hm, if_pos (hI.mem_iff.mp hm)]
        exact h
      · rw [if_neg hm, if_neg (fun hh => hm (hI.mem_iff.mpr hh))]
        exact ⟨hN, hC, hI.append_right [i], hnh, hch, hih⟩
  | deleteImage i =>
      exact ⟨hN, hC, hI.erase i, hnh, hch, hih⟩
  | moveImage i old newPos =>
      show SceneEq (s.setImage i { s.iheap i with pos := newPos })
        (t.setImage i { t.iheap i with pos := newPos })
      rw [hih]
      exact sceneEq_setImage h i _
  | resizeImage i oldW oldH newW newH =>
      show SceneEq (s.setImage i { s.iheap i with width := newW, height := newH })
        (t.setImage i { t.iheap i with width := newW, height := newH })
      rw [hih]
      exact sceneEq_setImage h i _
  | createModule ns imgs mid ol om oim =>
      simp only [execAction]
      rw [cmNodeFold ns mid s, cmNodeFold ns mid t, cmImgFold imgs mid,
        cmImgFold imgs mid]
      dsimp only
      exact ⟨hN, hC, hI, by rw [hnh], hch, by rw [hih]⟩
  | moveModule oldN newN oldI newI oldW newW =>
      simp only [execAction]
      rw [mmNodeFold newN s, mmNodeFold newN t, mmImgFold newI, mmImgFold newI,
        mmConnFold newW, mmConnFold newW]
      dsimp only
      exact ⟨hN, hC, hI, by rw [hnh], by rw [hch], by rw [hih]⟩
  | duplicateModule ns imgs cs =>
      simp only [execAction]
      rw [scene_foldl_nodes_append, scene_foldl_nodes_append,
        scene_foldl_images_append, scene_foldl_images_append,
        scene_foldl_conns_append, scene_foldl_conns_append]
      dsimp only
      exact ⟨foldl_append_perm ns hN, foldl_append_perm cs hC,
        foldl_append_perm imgs hI, hnh, hch, hih⟩
  | addWaypoint c wp idx =>
      show SceneEq (s.setConn c { s.cheap c with
          waypoints := waypointInsert (s.cheap c).waypoints wp idx })
        (t.setConn c { t.cheap c with
          waypoints := waypointInsert (t.cheap c).waypoints wp idx })
      rw [hch]
      exact sceneEq_setConn h c _
  | removeWaypoint c wp idx =>
      show SceneEq (s.setConn c { s.cheap c with
          waypoints := waypointPop (s.cheap c).waypoints wp idx })
        (t.setConn c { t.cheap c with
          waypoints := waypointPop (t.cheap c).waypoints wp idx })
      rw [hch]
      exact sceneEq_setConn h c _

end WireDiagram

namespace WireDiagram

/-- `Action.undo` likewise respects scene equality up to list order. -/
theorem undo_congr (a : Action) {s t : Scene} (h : SceneEq s t) :
    SceneEq (undoAction a s) (undoAction a t) := by
  have hN := h.1
  have hC := h.2.1
  have hI := h.2.2.1
  have hnh := h.2.2.2.1
  have hch := h.2.2.2.2.1
  have hih := h.2.2.2.2.2
  cases a with
  | addNode n =>
      simp only [undoAction]
      by_cases hm : n ∈ s.nodes
      · rw [if_pos hm, if_pos (hN.mem_iff.mp hm)]
        refine ⟨hN.erase n, ?_, hI, hnh, hch, hih⟩
        have hpred : (fun c => !(s.refs c n)) = (fun c => !(t.refs c n)) := by
          funext c
          simp only [Scene.refs]
          rw [hch]
        rw [hpred]
        exact hC.filter _
      · rw [if_neg hm, if_neg (fun hh => hm (hN.mem_iff.mpr hh))]
        exact h
  | deleteNode n cap =>
      simp only [undoAction]
      rw [scene_foldl_conns_append, scene_foldl_conns_append]
      by_cases hm : n ∈ s.nodes
      · rw [if_pos hm, if_pos (hN.mem_iff.mp hm)]
        exact ⟨hN, foldl_append_perm cap hC, hI, hnh, hch, hih⟩
      · rw [if_neg hm, if_neg (fun hh => hm (hN.mem_iff.mpr hh))]
        exact ⟨hN.append_right [n], foldl_append_perm cap hC, hI, hnh, hch, hih⟩
  | addConnection c =>
      exact ⟨hN, hC.erase c, hI, hnh, hch, hih⟩
  | deleteConnection c =>
      simp only [undoAction]
      by_cases hm : c ∈ s.conns
      · rw [if_pos hm, if_pos (hC.mem_iff.mp hm)]
        exact h
      · rw [if_neg hm, if_neg (fun hh => hm (hC.mem_iff.mpr hh))]
        exact ⟨hN, hC.append_right [c], hI, hnh, hch, hih⟩
  | moveNode n old newPos =>
      show SceneEq (s.setNode n { s.nheap n with pos := old })
        (t.setNode n { t.nheap n with pos := old })
      rw [hnh]
      exact sceneEq_setNode h n _
  | changeNodeColor n old newColor =>
      show SceneEq (s.setNode n { s.nheap n with color := old })
        (t.setNode n { t.nheap n with color := old })
      rw [hnh]
      exact sceneEq_setNode h n _
  | changeNodeClass n oldC newC oldCol newCol =>
      show SceneEq (s.setNode n { s.nheap n with nclass := oldC, color := oldCol })
        (t.setNode n { t.nheap n with nclass := oldC, color := oldCol })
      rw [hnh]
      exact sceneEq_setNode h n _
  | changeConnectionColor c old newColor =>
      show SceneEq (s.setConn c { s.cheap c with color := old })
        (t.setConn c { t.cheap c with color := old })
      rw [hch]
      exact sceneEq_setConn h c _
  | addImage i =>
      exact ⟨hN, hC, hI.erase i, hnh, hch, hih⟩
  | deleteImage i =>
      simp only [undoAction]
      by_cases hm : i ∈ s.images
      · rw [if_pos hm, if_pos (hI.mem_iff.mp hm)]
        exact h
      · rw [if_neg hm, if_neg (fun hh => hm (hI.mem_iff.mpr hh))]
        exact ⟨hN, hC, hI.append_right [i], hnh, hch, hih⟩
  | moveImage i old newPos =>
      show SceneEq (s.setImage i { s.iheap i with pos := old })
        (t.setImage i { t.iheap i with pos := old })
      rw [hih]
      exact sceneEq_setImage h i _
  | resizeImage i oldW oldH newW newH =>
      show SceneEq (s.setImage i { s.iheap i with width := oldW, height := oldH })
        (t.setImage i { t.iheap i with width := oldW, height := oldH })
      rw [hih]
      exact sceneEq_setImage h i _
  | createModule ns imgs mid ol om oim =>
      simp only [undoAction]
      rw [cmUNodeFold ns ol om s, cmUNodeFold ns ol om t,
        cmUImgFold imgs oim, cmUImgFold imgs oim]
      dsimp only
      exact ⟨hN, hC, hI, by rw [hnh], hch, by rw [hih]⟩
  | moveModule oldN newN oldI newI oldW newW =>
      simp only [undoAction]
      rw [mmNodeFold oldN s, mmNodeFold oldN t, mmImgFold oldI, mmImgFold oldI,
        mmConnFold oldW, mmConnFold oldW]
      dsimp only
      exact ⟨hN, hC, hI, by rw [hnh], by rw [hch], by rw [hih]⟩
  | duplicateModule ns imgs cs =>
      simp only [undoAction]
      rw [scene_foldl_nodes_erase, scene_foldl_nodes_erase,
        scene_foldl_images_erase, scene_foldl_images_erase,
        scene_foldl_conns_erase, scene_foldl_conns_erase]
      dsimp only
      exact ⟨removeEach_perm ns hN, removeEach_perm cs hC,
        removeEach_perm imgs hI, hnh, hch, hih⟩
  | addWaypoint c wp idx =>
      show SceneEq (s.setConn c { s.cheap c with
          waypoints := waypointPop (s.cheap c).waypoints wp idx })
        (t.setConn c { t.cheap c with
          waypoints := waypointPop (t.cheap c).waypoints wp idx })
      rw [hch]
      exact sceneEq_setConn h c _
  | removeWaypoint c wp idx =>
      show SceneEq (s.setConn c { s.cheap c with
          waypoints := waypointInsert (s.cheap c).waypoints wp idx })
        (t.setConn c { t.cheap c with
          waypoints := waypointInsert (t.cheap c).waypoints wp idx })
      rw [hch]
      exact sceneEq_setConn h c _

/-- Re-executing a command (redo) ignores the state `execute` recaptured:
only `DeleteNodeAction.execute` rewrites its stored `deleted_connections`,
and `execute` recomputes that capture from the live scene anyway. -/
theorem exec_snd_fst (a : Action) (s x : Scene) :
    (execAction (execAction a s).1 x).2 = (execAction a x).2 := by
  cases a with
  | deleteNode n cap =>
      by_cases hm : n ∈ s.nodes
      · rw [execAction_deleteNode_pos hm cap]
        dsimp only
        by_cases hx : n ∈ x.nodes
        · rw [execAction_deleteNode_pos hx, execAction_deleteNode_pos hx]
        · rw [execAction_deleteNode_neg hx, execAction_deleteNode_neg hx]
      · rw [execAction_deleteNode_neg hm cap]
  | addNode n => rfl
  | addConnection c => rfl
  | deleteConnection c => rfl
  | moveNode n old newPos => rfl
  | changeNodeColor n old newColor => rfl
  | changeNodeClass n oldC newC oldCol newCol => rfl
  | changeConnectionColor c old newColor => rfl
  | addImage i => rfl
  | deleteImage i => rfl
  | moveImage i old newPos => rfl
  | resizeImage i oldW oldH newW newH => rfl
  | createModule ns imgs mid ol om oim => rfl
  | moveModule oldN newN oldI newI oldW newW => rfl
  | duplicateModule ns imgs cs => rfl
  | addWaypoint c wp idx => rfl
  | removeWaypoint c wp idx => rfl

theorem nodup_append_singleton {l : List Nat} {x : Nat} (h : l.Nodup)
    (hx : x ∉ l) : (l ++ [x]).Nodup := by
  rw [List.nodup_append]
  exact ⟨h, List.nodup_singleton x,
    fun a ha hb => by simp at hb; exact hx (hb ▸ ha)⟩

theorem foldl_append_guard_nodup (xs : List Nat) :
    ∀ {l : List Nat}, l.Nodup →
    (xs.foldl (fun acc x => if x ∈ acc then acc else acc ++ [x]) l).Nodup := by
  induction xs with
  | nil => intro l h; exact h
  | cons x rest ih =>
      intro l h
      simp only [List.foldl_cons]
      by_cases hm : x ∈ l
      · rw [if_pos hm]
        exact ih h
      · rw [if_neg hm]
        exact ih (nodup_append_singleton h hm)

/-- `Action.execute` preserves the canvas list invariant (all structural
inserts are guarded by membership tests). -/
theorem exec_invB (a : Action) {s : Scene} (h : invB s = true) :
    invB (execAction a s).2 = true := by
  have h' : (s.nodes.Nodup ∧ s.conns.Nodup) ∧ s.images.Nodup := by
    simpa [invB] using h
  obtain ⟨⟨hn, hc⟩, hi⟩ := h'
  cases a with
  | addNode n =>
      show invB (if n ∈ s.nodes then s else { s with nodes := s.nodes ++ [n] }) = true
      by_cases hm : n ∈ s.nodes
      · rw [if_pos hm]
        exact h
      · rw [if_neg hm]
        simp [invB, hc, hi]
        exact nodup_append_singleton hn hm
  | deleteNode n cap =>
      by_cases hm : n ∈ s.nodes
      · rw [execAction_deleteNode_pos hm cap]
        dsimp only
        simp [invB, hi]
        exact ⟨hn.erase n, removeEach_nodup hc⟩
  
      · rw [execAction_deleteNode_neg hm cap]
        exact h
  | addConnection c =>
      show invB (if c ∈ s.conns then s else { s with conns := s.conns ++ [c] }) = true
      by_cases hm : c ∈ s.conns
      · rw [if_pos hm]
        exact h
      · rw [if_neg hm]
        simp [invB, hn, hi]
        exact nodup_append_singleton hc hm
  | deleteConnection c =>
      show invB { s with conns := s.conns.erase c } = true
      simp [invB, hn, hi]
      exact hc.erase c
  | moveNode n old newPos => exact h
  | changeNodeColor n old newColor => exact h
  | changeNodeClass n oldC newC oldCol newCol => exact h
  | changeConnectionColor c old newColor => exact h
  | addImage i =>
      show invB (if i ∈ s.images then s else { s with images := s.images ++ [i] }) = true
      by_cases hm : i ∈ s.images
      · rw [if_pos hm]
        exact h
      · rw [if_neg hm]
        simp [invB, hn, hc]
        exact nodup_append_singleton hi hm
  | deleteImage i =>
      show invB { s with images := s.images.erase i } = true
      simp [invB, hn, hc]
      exact hi.erase i
  | moveImage i old newPos => exact h
  | resizeImage i oldW oldH newW newH => exact h
  | createModule ns imgs mid ol om oim =>
      simp only [execAction]
      rw [cmNodeFold ns mid s, cmImgFold imgs mid]
      exact h
  | moveModule oldN newN oldI newI oldW newW =>
      simp only [execAction]
      rw [mmNodeFold newN s, mmImgFold newI, mmConnFold newW]
      exact h
  | duplicateModule ns imgs cs =>
      simp only [execAction]
      rw [scene_foldl_nodes_append, scene_foldl_images_append,
        scene_foldl_conns_append]
      dsimp only
      simp [invB]
      exact ⟨⟨foldl_append_guard_nodup ns hn, foldl_append_guard_nodup cs hc⟩,
        foldl_append_guard_nodup imgs hi⟩
  | addWaypoint c wp idx => exact h
  | removeWaypoint c wp idx => exact h

end WireDiagram

namespace WireDiagram

/-! ### C1: the command-log roundtrip -/

/-- The scene reached by running a command list through `Action.execute`. -/
def execList : Scene → List Action → Scene
  | s, [] => s
  | s, a :: rest => execList (execAction a s).2 rest

/-- The commands as they sit on the undo stack after execution (each
`DeleteNodeAction` carrying the connections its `execute` captured). -/
def updList : Scene → List Action → List Action
  | _, [] => []
  | s, a :: rest => (execAction a s).1 :: updList (execAction a s).2 rest

theorem executeAll_scene : ∀ (acts : List Action) (cv : Canvas),
    (executeAll cv acts).scene = execList cv.scene acts := by
  intro acts
  induction acts with
  | nil => intro cv; rfl
  | cons a rest ih =>
      intro cv
      show (executeAll (executeAction cv a) rest).scene = _
      rw [ih]
      rfl

theorem executeAll_undoStack : ∀ (acts : List Action) (cv : Canvas),
    (executeAll cv acts).undoStack
      = (updList cv.scene acts).reverse ++ cv.undoStack := by
  intro acts
  induction acts with
  | nil => intro cv; rfl
  | cons a rest ih =>
      intro cv
      show (executeAll (executeAction cv a) rest).undoStack = _
      rw [ih]
      show (updList (execAction a cv.scene).2 rest).reverse
          ++ ((execAction a cv.scene).1 :: cv.undoStack)
        = ((execAction a cv.scene).1
            :: updList (execAction a cv.scene).2 rest).reverse ++ cv.undoStack
      rw [List.reverse_cons, List.append_assoc]
      rfl

theorem undoN_succ : ∀ (n : Nat) (cv : Canvas),
    undoN (n + 1) cv = undoCanvas (undoN n cv) := by
  intro n
  induction n with
  | zero => intro cv; rfl
  | succ m ih =>
      intro cv
      show undoN (m + 1) (undoCanvas cv) = _
      rw [ih]
      rfl

theorem execList_append : ∀ (xs ys : List Action) (s : Scene),
    execList s (xs ++ ys) = execList (execList s xs) ys := by
  intro xs
  induction xs with
  | nil => intro ys s; rfl
  | cons a rest ih =>
      intro ys s
      show execList (execAction a s).2 (rest ++ ys) = _
      exact ih ys _

theorem updList_append : ∀ (xs ys : List Action) (s : Scene),
    updList s (xs ++ ys) = updList s xs ++ updList (execList s xs) ys := by
  intro xs
  induction xs with
  | nil => intro ys s; rfl
  | cons a rest ih =>
      intro ys s
      show (execAction a s).1 :: updList (execAction a s).2 (rest ++ ys) = _
      rw [ih ys _]
      rfl

theorem wfChain_append : ∀ (xs ys : List Action) (s : Scene),
    wfChain s (xs ++ ys) = true → wfChain (execList s xs) ys = true := by
  intro xs
  induction xs with
  | nil => intro ys s h; exact h
  | cons a rest ih =>
      intro ys s h
      simp only [wfChain, Bool.and_eq_true] at h
      exact ih ys _ h.2

theorem invB_execList : ∀ (xs : List Action) (s : Scene),
    invB s = true → invB (execList s xs) = true := by
  intro xs
  induction xs with
  | nil => intro s h; exact h
  | cons a rest ih => intro s h; exact ih _ (exec_invB a h)

/-- Undo phase: popping and undoing the whole command segment restores the
scene at the segment's start (up to list order), leaves the undo stack at
what lay below the segment, and pushes the segment onto the redo stack in
forward order. -/
theorem undo_phase : ∀ (as : List Action) (s : Scene), invB s = true →
    wfChain s as = true → ∀ (u : Scene), SceneEq u (execList s as) →
    ∀ (ustk rstk : List Action),
    SceneEq ((undoN as.length
        ⟨u, (updList s as).reverse ++ ustk, rstk⟩).scene) s ∧
    (undoN as.length ⟨u, (updList s as).reverse ++ ustk, rstk⟩).undoStack
      = ustk ∧
    (undoN as.length ⟨u, (updList s as).reverse ++ ustk, rstk⟩).redoStack
      = updList s as ++ rstk := by
  intro as
  induction as with
  | nil =>
      intro s _ _ u hu ustk rstk
      exact ⟨hu, rfl, rfl⟩
  | cons a rest ih =>
      intro s hinv hwf u hu ustk rstk
      simp only [wfChain, Bool.and_eq_true] at hwf
      have hIH := ih (execAction a s).2 (exec_invB a hinv) hwf.2 u hu
        ((execAction a s).1 :: ustk) rstk
      have hcv : (⟨u, (updList s (a :: rest)).reverse ++ ustk, rstk⟩ : Canvas)
          = ⟨u, (updList (execAction a s).2 rest).reverse
              ++ ((execAction a s).1 :: ustk), rstk⟩ := by
        show (⟨u, ((execAction a s).1
            :: updList (execAction a s).2 rest).reverse ++ ustk, rstk⟩ : Canvas) = _
        rw [List.reverse_cons, List.append_assoc]
        rfl
      rw [hcv]
      simp only [List.length_cons]
      rw [undoN_succ]
      have hwEq : undoN rest.length
            ⟨u, (updList (execAction a s).2 rest).reverse
               ++ ((execAction a s).1 :: ustk), rstk⟩
          = ⟨(undoN rest.length
              ⟨u, (updList (execAction a s).2 rest).reverse
                 ++ ((execAction a s).1 :: ustk), rstk⟩).scene,
             (execAction a s).1 :: ustk,
             updList (execAction a s).2 rest ++ rstk⟩ :=
        Canvas.ext rfl hIH.2.1 hIH.2.2
      rw [hwEq]
      refine ⟨?_, rfl, ?_⟩
      · exact SceneEq.trans (undo_congr (execAction a s).1 hIH.1)
          (exec_undo_exact a s hwf.1 hinv)
      · show (execAction a s).1 :: (updList (execAction a s).2 rest ++ rstk)
            = updList s (a :: rest) ++ rstk
        rfl

/-- Redo phase: re-executing the segment sitting on the redo stack from any
scene equal (up to list order) to the segment's start reproduces the
segment's final scene and consumes exactly the segment from the redo
stack. -/
theorem redo_phase : ∀ (as : List Action) (s : Scene), invB s = true →
    wfChain s as = true → ∀ (w : Scene), SceneEq w s →
    ∀ (ustk rstk : List Action),
    SceneEq ((redoN as.length ⟨w, ustk, updList s as ++ rstk⟩).scene)
      (execList s as) ∧
    (redoN as.length ⟨w, ustk, updList s as ++ rstk⟩).redoStack = rstk := by
  intro as
  induction as with
  | nil => intro s _ _ w hw ustk rstk; exact ⟨hw, rfl⟩
  | cons a rest ih =>
      intro s hinv hwf w hw ustk rstk
      simp only [wfChain, Bool.and_eq_true] at hwf
      have h3 : SceneEq ((execAction (execAction a s).1 w).2)
          ((execAction a s).2) := by
        rw [exec_snd_fst a s w]
        exact exec_congr a hw
      exact ih (execAction a s).2 (exec_invB a hinv) hwf.2
        ((execAction (execAction a s).1 w).2) h3
        ((execAction (execAction a s).1 w).1 :: ustk) rstk

theorem undo_redo_phases (as : List Action) (s : Scene) (hinv : invB s = true)
    (hwf : wfChain s as = true) (ustk rstk : List Action) :
    SceneEq ((redoN as.length (undoN as.length
        ⟨execList s as, (updList s as).reverse ++ ustk, rstk⟩)).scene)
      (execList s as) := by
  have hu := undo_phase as s hinv hwf (execList s as) (SceneEq.refl _) ustk rstk
  have hcu : undoN as.length
        ⟨execList s as, (updList s as).reverse ++ ustk, rstk⟩
      = ⟨(undoN as.length
          ⟨execList s as, (updList s as).reverse ++ ustk, rstk⟩).scene,
         ustk, updList s as ++ rstk⟩ :=
    Canvas.ext rfl hu.2.1 hu.2.2
  rw [hcu]
  exact (redo_phase as s hinv hwf _ hu.1 ustk rstk).1

theorem undo_redo_segment (cv : Canvas) (front back : List Action)
    (hwf : wfChain cv.scene (front ++ back) = true)
    (hinv : invB cv.scene = true) :
    SceneEq ((redoN back.length
        (undoN back.length (executeAll cv (front ++ back)))).scene)
      ((executeAll cv (front ++ back)).scene) := by
  have hcv : executeAll cv (front ++ back)
      = ⟨execList (execList cv.scene front) back,
         (updList (execList cv.scene front) back).reverse
           ++ ((updList cv.scene front).reverse ++ cv.undoStack),
         (executeAll cv (front ++ back)).redoStack⟩ := by
    refine Canvas.ext ?_ ?_ rfl
    · rw [executeAll_scene, execList_append]
    · rw [executeAll_undoStack, updList_append, List.reverse_append,
        List.append_assoc]
  rw [hcv]
  exact undo_redo_phases back (execList cv.scene front)
    (invB_execList front cv.scene hinv)
    (wfChain_append front back cv.scene hwf)
    ((updList cv.scene front).reverse ++ cv.undoStack)
    ((executeAll cv (front ++ back)).redoStack)

end WireDiagram

namespace WireDiagram

/-- c1: For any sequence of commands applied via the command log
(`execute_action`), with each command constructed from the scene it executes
in (its stored before-state matching, added objects fresh — `wfChain`) and
the canvas lists duplicate-free, calling `undo()` n times and then `redo()`
n times restores the scene — entity sets and every attribute — to its
immediately-post-sequence state, for every n up to the sequence length. -/
theorem c1_undo_redo_roundtrip (cv : Canvas) (acts : List Action) (n : Nat)
    (hn : n ≤ acts.length) (hwf : wfChain cv.scene acts = true)
    (hinv : invB cv.scene = true) :
    SceneEq ((redoN n (undoN n (executeAll cv acts))).scene)
      ((executeAll cv acts).scene) := by
  have hsplit := (List.take_append_drop (acts.length - n) acts).symm
  have hlenback : (acts.drop (acts.length - n)).length = n := by
    rw [List.length_drop]
    omega
  have key := undo_redo_segment cv (acts.take (acts.length - n))
    (acts.drop (acts.length - n)) (by rw [← hsplit]; exact hwf) hinv
  rw [hsplit]
  nth_rewrite 1 2 [← hlenback]
  exact key

theorem c1_undo_redo_roundtrip_witness :
    (2 ≤ ([Action.addNode 0, Action.addNode 1, Action.addConnection 7]
        : List Action).length
      ∧ wfChain (⟨sceneEmpty, [], []⟩ : Canvas).scene
          [Action.addNode 0, Action.addNode 1, Action.addConnection 7] = true
      ∧ invB (⟨sceneEmpty, [], []⟩ : Canvas).scene = true)
    ∧ SceneEq ((redoN 2 (undoN 2 (executeAll ⟨sceneEmpty, [], []⟩
          [Action.addNode 0, Action.addNode 1, Action.addConnection 7]))).scene)
        ((executeAll ⟨sceneEmpty, [], []⟩
          [Action.addNode 0, Action.addNode 1, Action.addConnection 7]).scene) :=
  ⟨⟨by decide, by decide, by decide⟩,
   c1_undo_redo_roundtrip ⟨sceneEmpty, [], []⟩
     [Action.addNode 0, Action.addNode 1, Action.addConnection 7] 2
     (by decide) (by decide) (by decide)⟩

end WireDiagram

namespace WireDiagram

/-! ### C10 — `duplicate_module` instance-id generation
(`diagram_canvas.py`, lines 990–1089)

String machinery: Python's `str.split(sep)` (left-to-right, non-overlapping
occurrences of a non-empty separator), `str.startswith`, and `int()` on the
plain digit strings that arise from instance suffixes (Python's `int` also
accepts signs/whitespace, which never reach this code path in the scenes
quantified over here). -/

def splitOnAux (sep : List Char) : Nat → List Char → List Char → List (List Char)
  | 0, cur, s => [cur.reverse ++ s]
  | fuel + 1, cur, s =>
      match s with
      | [] => [cur.reverse]
      | c :: rest =>
          if sep.isPrefixOf (c :: rest) then
            cur.reverse :: splitOnAux sep fuel [] (List.drop sep.length (c :: rest))
          else
            splitOnAux sep fuel (c :: cur) rest

/-- Python `s.split(sep)` for non-empty `sep`. -/
def pySplit (sep s : String) : List String :=
  (splitOnAux sep.data (s.data.length + 1) [] s.data).map (fun l => ⟨l⟩)

/-- Python `int(s)` on unsigned digit strings: `some` of the value on a
non-empty all-digit string, `none` (a `ValueError`) otherwise. -/
def pyIntNat (s : String) : Option Nat :=
  if s.data.isEmpty then none
  else if s.data.all (fun c => decide (48 ≤ c.toNat) && decide (c.toNat ≤ 57)) then
    some (s.data.foldl (fun acc c => acc * 10 + (c.toNat - 48)) 0)
  else none

/-- Outcome of the id-generation prefix of `duplicate_module`:
`attrError` models the `AttributeError` raised by
`n.module_id.startswith(...)` when a scanned node's `module_id` is `None`
(every `Node.__init__` sets the attribute, so `hasattr` never filters);
`noNodes` is the early `return` when no node carries the requested id;
`newId` is the computed `new_instance_id`. -/
inductive DupIdResult where
  | attrError
  | noNodes
  | newId (nid : String)
deriving DecidableEq, Repr

/-- `DiagramCanvas.duplicate_module`, lines 993–1022: select the nodes
tagged `mid`; split `mid` on `"_inst_"` to extract the base id (only when
the split has exactly two parts); scan every node whose `module_id` starts
with `base + "_inst_"`, parsing the segment after the FIRST `"_inst_"`
occurrence as the instance number (`ValueError`/`IndexError` are swallowed);
the new id is `base_inst_(max+1)`. -/
def duplicateModuleNewId (s : Scene) (mid : String) : DupIdResult :=
  let nodesToDup := s.nodes.filter (fun n => (s.nheap n).moduleId == some mid)
  if nodesToDup.isEmpty then .noNodes
  else
    let parts := pySplit "_inst_" mid
    let base := if parts.length = 2 then parts.getD 0 "" else mid
    if s.nodes.any (fun n => (s.nheap n).moduleId == none) then .attrError
    else
      let pfx := base ++ "_inst_"
      let existing := s.nodes.filter (fun n =>
        match (s.nheap n).moduleId with
        | some m => pfx.data.isPrefixOf m.data
        | none => false)
      let maxInst := existing.foldl (fun acc n =>
        match (s.nheap n).moduleId with
        | some m =>
            let ps := pySplit "_inst_" m
            if ps.length < 2 then acc
            else
              match pyIntNat (ps.getD 1 "") with
              | some k => Nat.max acc k
              | none => acc
        | none => acc) 0
      .newId (base ++ "_inst_" ++ natRepr (maxInst + 1))

/-- Canvas holding instances `m_inst_1` and `m_inst_2` (every node module-
tagged): the clean case. -/
def sceneC10good : Scene :=
  { sceneEmpty with
    nodes := [0, 1],
    nheap := fun k =>
      if k = 0 then { nd0 with moduleId := some "m_inst_1", locked := true }
      else if k = 1 then { nd0 with moduleId := some "m_inst_2", locked := true }
      else nd0 }

/-- Canvas with one `m_inst_1` node plus one ordinary untagged node
(`module_id = None`), the normal state of any mixed diagram. -/
def sceneC10crash : Scene :=
  { sceneEmpty with
    nodes := [0, 1],
    nheap := fun k =>
      if k = 0 then { nd0 with moduleId := some "m_inst_1", locked := true }
      else nd0 }

/-- Canvas with instance ids `a_inst` (a bare id that happens to end in
`_inst`) and `a_inst_inst_1`. -/
def sceneC10coll : Scene :=
  { sceneEmpty with
    nodes := [0, 1],
    nheap := fun k =>
      if k = 0 then { nd0 with moduleId := some "a_inst", locked := true }
      else if k = 1 then { nd0 with moduleId := some "a_inst_inst_1", locked := true }
      else nd0 }

/-- c10: the claimed id formula does hold on an all-tagged canvas with
single-`_inst_` ids (duplicating `m_inst_1` beside `m_inst_2` yields
`m_inst_3`), BUT (a) the scan `n.module_id.startswith(...)` raises
`AttributeError` as soon as the canvas holds a single ordinary untagged
node — `duplicate_module` assigns no id at all on such canvases, contra the
claim's universal quantification — and (b) the claimed uniqueness
consequence fails: duplicating the bare id `a_inst` while `a_inst_inst_1`
exists reuses the id `a_inst_inst_1` of an existing node, because
`split("_inst_")[1]` takes the segment after the FIRST occurrence
(`"inst_1"`, unparseable, swallowed), not the integer suffix. -/
theorem c10_duplicate_module_instance_id :
    duplicateModuleNewId sceneC10good "m_inst_1" = .newId "m_inst_3" ∧
    duplicateModuleNewId sceneC10crash "m_inst_1" = .attrError ∧
    duplicateModuleNewId sceneC10coll "a_inst" = .newId "a_inst_inst_1" ∧
    (some ("a_inst_inst_1" : String))
      ∈ sceneC10coll.nodes.map (fun n => (sceneC10coll.nheap n).moduleId) := by
  decide

end WireDiagram
